import Mathlib

/-!
# xgbooster: label codec, sample weights, train/test split, CSV ingest, model facade

A shallow embedding of `src/xgbooster.cpp` and `src/mainwindow.cpp`.

Numeric conventions used throughout:
* `double` and `float` values are modelled by rationals `ℚ`: finite values with exact
  arithmetic.  Infinities and rounding error of arithmetic are outside the model, and the
  conversion `double → float` is the identity on the value.
* Class labels are `Label`: a finite value or NaN.  The conversion `int → float` of a label
  code is `intToFloat`, which rounds to 24 significant bits.
* `static_cast<int>(x)` is truncation toward zero.
* `QVector<T>` is `List T`; `QHash<double,int>` is an association list.
-/

namespace XGB

/-! ## Label codec (`XGBClassifier::EncodeLabels`, `XGBClassifier::DecodeLabels`) -/

/-- A class label, a `double` as the codec handles it: a finite value or NaN. -/
inductive Label where
  | num (q : ℚ)
  | nan
deriving DecidableEq, Repr

/-- The comparison `==` on `double` labels, which the `QHash` uses to find a key: equal
finite values are equal, and NaN is equal to nothing, itself included. -/
def Label.eq : Label → Label → Bool
  | Label.num a, Label.num b => decide (a = b)
  | _, _ => false

/-- The number of low bits an integer magnitude loses when it is stored in 24 significant
bits: 0 below `2^24`, otherwise one more than for half the magnitude. The fuel 8 covers every
`int` (magnitudes up to `2^31`). -/
def droppedBits : Nat → Nat → Nat
  | 0, _ => 0
  | fuel + 1, a => if a < 2 ^ 24 then 0 else droppedBits fuel (a / 2) + 1

/-- The conversion of an `int` to `float` (binary32, 24 significant bits, round to nearest,
ties to even): the `e` low bits that do not fit are dropped and the rest is rounded. -/
def intToFloat (n : Int) : ℚ :=
  let a := n.natAbs
  let e := droppedBits 8 a
  let q := a / 2 ^ e
  let r := a % 2 ^ e
  let rounded := if 2 ^ e < 2 * r ∨ (2 * r = 2 ^ e ∧ q % 2 = 1) then q + 1 else q
  ((n.sign * ((rounded * 2 ^ e : Nat) : Int) : Int) : ℚ)

/-- The type `QHash<double,int>` of `label_to_index_`, as an association list. -/
abbrev QHash := List (Label × Int)

/-- The call `QHash::contains(key)`. -/
def QHash.contains (h : QHash) (key : Label) : Bool :=
  h.any (fun p => Label.eq p.1 key)

/-- The value read by `hash[key]`: the stored value, or a default-constructed `int` (0) when
no key compares equal. -/
def QHash.value (h : QHash) (key : Label) : Int :=
  match h.find? (fun p => Label.eq p.1 key) with
  | some p => p.2
  | none => 0

/-- The hash after a read `hash[key]`: unchanged when a key compares equal, and with a new
default entry for `key` when none does. -/
def QHash.touch (h : QHash) (key : Label) : QHash :=
  if h.contains key then h else h ++ [(key, 0)]

/-- The assignment `hash[key] = v`: replaces the entry of `key` or adds one. -/
def QHash.insert (h : QHash) (key : Label) (v : Int) : QHash :=
  (key, v) :: h.filter (fun p => !Label.eq p.1 key)

/-- The variables of the loop of `EncodeLabels`: the two members of the classifier, the
counter `idx` and the output vector `encoded`. -/
structure EncodeState where
  label_to_index_ : QHash
  index_to_label_ : List Label
  idx : Int
  encoded : List ℚ
deriving DecidableEq

/-- One iteration of `for (double label : y)` in `EncodeLabels`. The code appended to
`encoded` is the `int` read from the hash, converted to `float`. -/
def encodeStep (s : EncodeState) (label : Label) : EncodeState :=
  let s1 : EncodeState :=
    if !s.label_to_index_.contains label then
      { s with
        label_to_index_ := s.label_to_index_.insert label s.idx
        idx := s.idx + 1
        index_to_label_ := s.index_to_label_ ++ [label] }
    else s
  { s1 with
    label_to_index_ := s1.label_to_index_.touch label
    encoded := s1.encoded ++ [intToFloat (s1.label_to_index_.value label)] }

/-- The state at loop entry: both members cleared, `idx = 0`, `encoded` empty. -/
def encodeInit : EncodeState :=
  { label_to_index_ := [], index_to_label_ := [], idx := 0, encoded := [] }

/-- The function `XGBClassifier::EncodeLabels`: the final loop state; its `encoded` field is the
returned vector and the other fields are the members left in the classifier. -/
def EncodeLabels (y : List Label) : EncodeState :=
  y.foldl encodeStep encodeInit

/-- The conversion `static_cast<int>(x)` of a floating value: truncation toward zero (a value
whose truncation does not fit an `int` is undefined in C++ and is not singled out here). -/
def truncToInt (x : ℚ) : Int :=
  if 0 ≤ x then ⌊x⌋ else ⌈x⌉

/-- The body of the loop of `DecodeLabels` for one predicted value. -/
def decodeOne (index_to_label_ : List Label) (val : ℚ) : Label :=
  let idx : Int := truncToInt (val + 1 / 2)
  if h : 0 ≤ idx ∧ idx < (index_to_label_.length : Int) then
    index_to_label_.get ⟨idx.toNat, by omega⟩
  else
    Label.num (-999)

/-- The function `XGBClassifier::DecodeLabels`. -/
def DecodeLabels (index_to_label_ : List Label) (pred : List ℚ) : List Label :=
  pred.map (decodeOne index_to_label_)

/-- Decoding of one value as the specification words it: the code is rounded to the nearest
integer, the inverse list is read there when the rounded index lies in `[0, K)`, and the
sentinel `-999` is returned otherwise. -/
def decodeOneSpec (index_to_label_ : List Label) (val : ℚ) : Label :=
  let idx : Int := round val
  if h : 0 ≤ idx ∧ idx < (index_to_label_.length : Int) then
    index_to_label_.get ⟨idx.toNat, by omega⟩
  else
    Label.num (-999)

/-- The specification's reading of `DecodeLabels`, elementwise `decodeOneSpec`. -/
def DecodeLabelsSpec (index_to_label_ : List Label) (pred : List ℚ) : List Label :=
  pred.map (decodeOneSpec index_to_label_)

/-- Invariant of the loop of `EncodeLabels` once the labels `pre` have been consumed, for
labels that are not NaN. -/
structure EncodeInv (pre : List Label) (s : EncodeState) : Prop where
  idx_eq : s.idx = (s.index_to_label_.length : Int)
  contains_iff : ∀ x, x ≠ Label.nan →
    (s.label_to_index_.contains x = true ↔ x ∈ s.index_to_label_)
  value_eq : ∀ x ∈ s.index_to_label_,
    s.label_to_index_.value x = ((s.index_to_label_.indexOf x : ℕ) : Int)
  encoded_eq : s.encoded
    = pre.map (fun y => intToFloat ((s.index_to_label_.indexOf y : ℕ) : Int))
  mem_iff : ∀ x, x ∈ s.index_to_label_ ↔ x ∈ pre
  order : s.index_to_label_.Pairwise (fun a b => pre.indexOf a < pre.indexOf b)

/-! ## Sample weights (`XGBClassifier::Fit`, the block guarded by the stabilizer test)

The block computes in `float`; here the stabilizer values are finite and the arithmetic is
exact. For stabilizer values that are not negative the weights before rescaling lie in
`[0.01, 1]`, their total is at most the number of rows and the rescaled weights lie in
`[0.01, 100]`, so no `float` of the block overflows. -/

/-- The weight of one row before rescaling: `1.0f - 0.9f * s`, raised to `0.01f` when below. -/
def rawWeight (s : ℚ) : ℚ :=
  let w := 1 - 9 / 10 * s
  if w < 1 / 100 then 1 / 100 else w

/-- The vector `sample_weights` after the first loop. Under the guard the vector has as many
entries as `stabilizer`, and entry `i` is overwritten from `stabilizer[i]`. -/
def rawWeights (stabilizer : List ℚ) : List ℚ :=
  stabilizer.map rawWeight

/-- The variable `mean_weight`: the accumulated total divided by the number of weights. -/
def meanWeight (stabilizer : List ℚ) : ℚ :=
  (rawWeights stabilizer).sum / ((rawWeights stabilizer).length : ℚ)

/-- The vector `sample_weights` as handed to the engine: every entry divided by
`mean_weight`. -/
def sampleWeights (stabilizer : List ℚ) : List ℚ :=
  (rawWeights stabilizer).map (fun w => w / meanWeight stabilizer)

/-- The weights `XGBClassifier::Fit` attaches for the stabilizer and the encoded labels:
`none` when the guard `!stabilizer.isEmpty() && stabilizer.size() == y_encoded.size()`
fails and no weight is attached. -/
def fitWeights (stabilizer y_encoded : List ℚ) : Option (List ℚ) :=
  if !stabilizer.isEmpty && stabilizer.length == y_encoded.length then
    some (sampleWeights stabilizer)
  else
    none

/-! ## The engine and the model facade (`XGBModel`, `XGBRegressor`, `XGBClassifier`) -/

/-- The exceptions the facade throws: `std::invalid_argument` with its text, and the
`std::runtime_error` that `safe_xgboost` raises on a non-zero engine status. -/
inductive Error where
  | invalid_argument (what : String)
  | runtime_error
deriving DecidableEq, Repr

/-- What the facade does to the outside world, in order: the calls of the engine API with
their arguments (handles are `Option Nat`, `none` for `nullptr`), the `progress` signal and
the `qWarning` of a cancelled training. -/
inductive Event where
  | XGDMatrixCreateFromMat (data : List ℚ) (nrow ncol : Nat)
  | XGDMatrixSetFloatInfo (handle : Option Nat) (field : String) (info : List ℚ)
  | XGBoosterCreate (dmats : List (Option Nat))
  | XGBoosterSetParam (handle : Option Nat) (name value : String)
  | XGBoosterUpdateOneIter (handle : Option Nat) (iter : Int) (dtrain : Option Nat)
  | XGBoosterPredict (handle : Option Nat) (dmat : Option Nat)
  | XGBoosterSaveModel (handle : Option Nat) (fname : String)
  | XGBoosterLoadModel (handle : Option Nat) (fname : String)
  | XGDMatrixFree (handle : Option Nat)
  | XGBoosterFree (handle : Option Nat)
  | progress (value : ℚ)
  | qWarning (text : String)
deriving DecidableEq

/-- The surroundings of a facade call. `status n` is the status the engine returns from its
`n`-th call (0 is success); `terminated i` is the value of `terminated_` read by the test
before step `i` of the training loop; `toInt` is `QString::toInt`. -/
structure Env where
  status : Nat → Int
  terminated : Nat → Bool
  toInt : String → Int

/-- The engine as seen from the facade: the events so far (oldest first), the number of
API calls made, the handles created and not yet freed, and the next unused handle. -/
structure Engine where
  log : List Event
  calls : Nat
  live : List Nat
  fresh : Nat
deriving DecidableEq

/-- The members of a facade object: those of `XGBModel`, and the two of `XGBClassifier`
(unused by a regressor). `params_` is the `QMap`, kept in key order. -/
structure XGBModel where
  booster_ : Option Nat
  dtrain_ : Option Nat
  params_ : List (String × String)
  n_features_ : Nat
  label_to_index_ : QHash
  index_to_label_ : List Label
deriving DecidableEq

/-- The state a member function runs on: the engine and the object itself. -/
structure Machine where
  engine : Engine
  self : XGBModel
deriving DecidableEq

/-- A member function of the facade: it returns a value or throws, and changes the state
either way. -/
def Facade (α : Type) : Type := Machine → Except Error α × Machine

instance : Monad Facade where
  pure a := fun m => (Except.ok a, m)
  bind x f := fun m =>
    match x m with
    | (Except.ok a, m1) => f a m1
    | (Except.error e, m1) => (Except.error e, m1)

/-- The statement `throw e`. -/
def Facade.throw {α : Type} (e : Error) : Facade α := fun m => (Except.error e, m)

/-- Reading the object's members. -/
def Facade.self : Facade XGBModel := fun m => (Except.ok m.self, m)

/-- Writing the object's members. -/
def Facade.modify (f : XGBModel → XGBModel) : Facade Unit :=
  fun m => (Except.ok (), { m with self := f m.self })

/-- Emitting a signal or a warning: the event is logged, nothing else happens. -/
def Facade.emit (ev : Event) : Facade Unit :=
  fun m => (Except.ok (), { m with engine := { m.engine with log := m.engine.log ++ [ev] } })

/-- The wrapper `safe_xgboost(call)` around an engine call that creates no handle: the call
is made (logged and counted) and a non-zero status becomes a `runtime_error`. -/
def safe_xgboost (env : Env) (call : Event) : Facade Unit := fun m =>
  let e1 : Engine := { m.engine with log := m.engine.log ++ [call], calls := m.engine.calls + 1 }
  if env.status m.engine.calls = 0 then (Except.ok (), { m with engine := e1 })
  else (Except.error Error.runtime_error, { m with engine := e1 })

/-- The wrapper `safe_xgboost(call)` around an engine call that creates a handle
(`XGDMatrixCreateFromMat`, `XGBoosterCreate`): on status 0 a fresh handle is live and
returned through the out-parameter; otherwise `runtime_error`. -/
def safe_xgboost_create (env : Env) (call : Event) : Facade Nat := fun m =>
  let e1 : Engine := { m.engine with log := m.engine.log ++ [call], calls := m.engine.calls + 1 }
  if env.status m.engine.calls = 0 then
    (Except.ok m.engine.fresh,
      { m with engine := { e1 with live := e1.live ++ [m.engine.fresh], fresh := m.engine.fresh + 1 } })
  else (Except.error Error.runtime_error, { m with engine := e1 })

/-- The loop `for (const auto& row : X)` of `CreateDMatrix`: the flattened matrix `flat_X`,
or the `invalid_argument` of the first row whose size differs from `n_features_`. -/
def flattenRows (n_features_ : Nat) : List (List ℚ) → List ℚ → Except Error (List ℚ)
  | [], flat_X => Except.ok flat_X
  | row :: rest, flat_X =>
    if row.length ≠ n_features_ then
      Except.error (Error.invalid_argument "Inconsistent feature size")
    else
      flattenRows n_features_ rest (flat_X ++ row)

/-- The function `XGBModel::CreateDMatrix(X, dmat)`; the handle written to `dmat` is the
returned value. -/
def CreateDMatrix (env : Env) (X : List (List ℚ)) : Facade Nat :=
  match X with
  | [] => Facade.throw (Error.invalid_argument "Empty feature matrix")
  | row0 :: _ => do
    Facade.modify (fun s => { s with n_features_ := row0.length })
    match flattenRows row0.length X [] with
    | Except.error e => Facade.throw e
    | Except.ok flat_X =>
      safe_xgboost_create env (Event.XGDMatrixCreateFromMat flat_X X.length row0.length)

/-- The loop of `XGBModel::SetBoosterParams` over the entries of `params_`. -/
def setParamsLoop (env : Env) (booster_ : Option Nat) : List (String × String) → Facade Unit
  | [] => pure ()
  | (k, v) :: rest => do
    safe_xgboost env (Event.XGBoosterSetParam booster_ k v)
    setParamsLoop env booster_ rest

/-- The function `XGBModel::SetBoosterParams`. -/
def SetBoosterParams (env : Env) : Facade Unit := do
  let s ← Facade.self
  setParamsLoop env s.booster_ s.params_

/-- The assignment `params_[key] = value` on the `QMap`, which keeps its entries in key
order. -/
def QMap.insert : List (String × String) → String → String → List (String × String)
  | [], key, value => [(key, value)]
  | (k1, v1) :: rest, key, value =>
    if key < k1 then (key, value) :: (k1, v1) :: rest
    else if key = k1 then (key, value) :: rest
    else (k1, v1) :: QMap.insert rest key value

/-- The expression
`params_.contains("num_boost_round") ? params_["num_boost_round"].toInt() : 10`. -/
def nIter (env : Env) (params_ : List (String × String)) : Int :=
  match params_.lookup "num_boost_round" with
  | some text => env.toInt text
  | none => 10

/-- The training loop `for (int i = 0; i < n_iter; ++i)` shared by both `Fit` functions,
entered at counter `i` with `remaining` iterations left before `i` reaches `n_iter`. -/
def trainLoop (env : Env) (n_iter : Int) (startProgressValue progressWidth : ℚ) :
    (remaining : Nat) → (i : Nat) → Facade Unit
  | 0, _ => pure ()
  | remaining + 1, i => do
    if env.terminated i then
      Facade.emit (Event.qWarning "Training was terminated by user.")
    else
      let s ← Facade.self
      safe_xgboost env (Event.XGBoosterUpdateOneIter s.booster_ (i : Int) s.dtrain_)
      Facade.emit
        (Event.progress (startProgressValue + progressWidth * ((i : ℚ) + 1) / (n_iter : ℚ)))
      trainLoop env n_iter startProgressValue progressWidth remaining (i + 1)

/-- The last part of both `Fit` functions: reading `n_iter`, computing `progressWidth`
and running the loop from `i = 0`. -/
def fitIterations (env : Env) (startProgressValue endProgressValue : ℚ) : Facade Unit := do
  let s ← Facade.self
  let n_iter := nIter env s.params_
  let progressWidth := endProgressValue - startProgressValue
  trainLoop env n_iter startProgressValue progressWidth n_iter.toNat 0

/-- The first part of `XGBRegressor::Fit`, up to `SetBoosterParams()`. -/
def XGBRegressor.setup (env : Env) (X : List (List ℚ)) (y : List ℚ) : Facade Unit := do
  let d ← CreateDMatrix env X
  Facade.modify (fun s => { s with dtrain_ := some d })
  safe_xgboost env (Event.XGDMatrixSetFloatInfo (some d) "label" y)
  let b ← safe_xgboost_create env (Event.XGBoosterCreate [some d])
  Facade.modify (fun s => { s with booster_ := some b })
  SetBoosterParams env

/-- The function `XGBRegressor::Fit`. -/
def XGBRegressor.Fit (env : Env) (X : List (List ℚ)) (y : List ℚ)
    (startProgressValue endProgressValue : ℚ) : Facade Unit := do
  XGBRegressor.setup env X y
  fitIterations env startProgressValue endProgressValue

/-- The first part of `XGBClassifier::Fit` (the overload with a stabilizer), up to
`SetBoosterParams()`. -/
def XGBClassifier.setup (env : Env) (X : List (List ℚ)) (y : List ℚ) (stabilizer : List ℚ) :
    Facade Unit := do
  let enc := EncodeLabels (y.map Label.num)
  Facade.modify (fun s =>
    { s with label_to_index_ := enc.label_to_index_, index_to_label_ := enc.index_to_label_ })
  let y_encoded := enc.encoded
  let d ← CreateDMatrix env X
  Facade.modify (fun s => { s with dtrain_ := some d })
  safe_xgboost env (Event.XGDMatrixSetFloatInfo (some d) "label" y_encoded)
  match fitWeights stabilizer y_encoded with
  | some sample_weights =>
    safe_xgboost env (Event.XGDMatrixSetFloatInfo (some d) "weight" sample_weights)
  | none => pure ()
  let b ← safe_xgboost_create env (Event.XGBoosterCreate [some d])
  Facade.modify (fun s => { s with booster_ := some b })
  Facade.modify (fun s =>
    { s with params_ := QMap.insert s.params_ "num_class" (toString s.index_to_label_.length) })
  SetBoosterParams env

/-- The function `XGBClassifier::Fit` with a stabilizer. -/
def XGBClassifier.Fit (env : Env) (X : List (List ℚ)) (y : List ℚ) (stabilizer : List ℚ)
    (startProgressValue endProgressValue : ℚ) : Facade Unit := do
  XGBClassifier.setup env X y stabilizer
  fitIterations env startProgressValue endProgressValue

/-- The override `XGBClassifier::Fit` without a stabilizer: it passes an empty one. -/
def XGBClassifier.FitNoStabilizer (env : Env) (X : List (List ℚ)) (y : List ℚ)
    (startProgressValue endProgressValue : ℚ) : Facade Unit :=
  XGBClassifier.Fit env X y [] startProgressValue endProgressValue

/-- The constructor `XGBModel(params)` followed by the body of `XGBRegressor`'s
constructor. -/
def XGBRegressor.new (params : List (String × String)) : XGBModel :=
  { booster_ := none, dtrain_ := none
    params_ := QMap.insert params "objective" "reg:squarederror"
    n_features_ := 0, label_to_index_ := [], index_to_label_ := [] }

/-- The constructor `XGBModel(params)` followed by the body of `XGBClassifier`'s
constructor. -/
def XGBClassifier.new (params : List (String × String)) : XGBModel :=
  { booster_ := none, dtrain_ := none
    params_ := QMap.insert params "objective" "multi:softmax"
    n_features_ := 0, label_to_index_ := [], index_to_label_ := [] }

/-- An engine call that frees `handle` and whose status the caller does not look at (the
destructor, the last call of `XGBClassifier::Predict`): the call is logged and counted, and
on status 0 the handle is no longer live. -/
def freeHandle (env : Env) (call : Event) (handle : Option Nat) : Facade Unit := fun m =>
  let live :=
    if env.status m.engine.calls = 0 then
      m.engine.live.filter (fun h => decide (some h ≠ handle))
    else m.engine.live
  (Except.ok (), { m with engine :=
    { m.engine with log := m.engine.log ++ [call], calls := m.engine.calls + 1, live := live } })

/-- The wrapper `safe_xgboost(call)` around an engine call that frees `handle`: on status 0
the handle is no longer live; otherwise `runtime_error`. -/
def safe_xgboost_free (env : Env) (call : Event) (handle : Option Nat) : Facade Unit := fun m =>
  let e1 : Engine := { m.engine with log := m.engine.log ++ [call], calls := m.engine.calls + 1 }
  if env.status m.engine.calls = 0 then
    (Except.ok (), { m with engine :=
      { e1 with live := e1.live.filter (fun h => decide (some h ≠ handle)) } })
  else (Except.error Error.runtime_error, { m with engine := e1 })

/-- The destructor `XGBModel::~XGBModel`: each of `dtrain_` and `booster_` is freed when it
is not `nullptr`. -/
def XGBModel.destroy (env : Env) : Facade Unit := do
  let s ← Facade.self
  match s.dtrain_ with
  | some d => freeHandle env (Event.XGDMatrixFree (some d)) (some d)
  | none => pure ()
  match s.booster_ with
  | some b => freeHandle env (Event.XGBoosterFree (some b)) (some b)
  | none => pure ()

/-- The function `XGBModel::SaveModel`. -/
def SaveModel (env : Env) (filename : String) : Facade Unit := do
  let s ← Facade.self
  safe_xgboost env (Event.XGBoosterSaveModel s.booster_ filename)

/-- The function `XGBModel::LoadModel`: a booster created from no matrix is written to
`booster_`, then the model file is loaded into it. -/
def LoadModel (env : Env) (filename : String) : Facade Unit := do
  let b ← safe_xgboost_create env (Event.XGBoosterCreate [])
  Facade.modify (fun s => { s with booster_ := some b })
  safe_xgboost env (Event.XGBoosterLoadModel (some b) filename)

/-- The function `XGBRegressor::Predict`. `out_result` is the prediction vector the engine
returns from `XGBoosterPredict` (`out_len` is its length). -/
def XGBRegressor.Predict (env : Env) (X : List (List ℚ)) (out_result : List ℚ) :
    Facade (List ℚ) := do
  let dtest ← CreateDMatrix env X
  let s ← Facade.self
  safe_xgboost env (Event.XGBoosterPredict s.booster_ (some dtest))
  let result := out_result
  safe_xgboost_free env (Event.XGDMatrixFree (some dtest)) (some dtest)
  pure result

/-- The function `XGBClassifier::Predict`: the engine's vector is decoded through
`DecodeLabels`, and `dtest` is freed without a look at the status. -/
def XGBClassifier.Predict (env : Env) (X : List (List ℚ)) (out_result : List ℚ) :
    Facade (List Label) := do
  let dtest ← CreateDMatrix env X
  let s ← Facade.self
  safe_xgboost env (Event.XGBoosterPredict s.booster_ (some dtest))
  let raw := out_result
  let result := DecodeLabels s.index_to_label_ raw
  freeHandle env (Event.XGDMatrixFree (some dtest)) (some dtest)
  pure result

/-! ## The main window (`MainWindow::loadCSV`, `MainWindow::startTraining`,
`MainWindow::predict`) -/

/-- A message box shown to the user. -/
inductive Message where
  | warning (text : String)
  | information (text : String)
deriving DecidableEq, Repr

/-- The two concrete classes a `model_` pointer can refer to. -/
inductive Kind where
  | regressor
  | classifier
deriving DecidableEq, Repr

/-- The members of `MainWindow` together with the part of the widgets the slots read or
write: the check state of each row of `featureTable_`, the item counts and current indices
of `targetBox_` and `stabilizerBox_`, whether `taskBox_` shows "Regression", the texts of the
four line edits and the enabled flags of the buttons. `engine` is the boosting library,
`pendingDelete` the objects handed to `deleteLater()`. -/
structure MainWindow where
  features_ : List (List ℚ)
  features_test_ : List (List ℚ)
  targets_ : List ℚ
  targets_test_ : List ℚ
  stabilizer_ : List ℚ
  stabilizer_test_ : List ℚ
  dataRows_ : List (List ℚ)
  columnNames_ : List (List Char)
  featureTable_ : List Bool
  targetBox_count : Nat
  targetBox_currentIndex : Int
  stabilizerBox_count : Nat
  stabilizerBox_currentIndex : Int
  taskBox_isRegression : Bool
  iterEdit_ : String
  depthEdit_ : String
  etaEdit_ : String
  lambdaEdit_ : String
  trainButton_enabled : Bool
  saveButton_enabled : Bool
  loadModelButton_enabled : Bool
  predictButton_enabled : Bool
  model_ : Option (Kind × XGBModel)
  pendingDelete : List (Kind × XGBModel)
  engine : Engine
deriving DecidableEq

/-- The window as the constructor leaves it, on an engine that has not been used. -/
def MainWindow.init : MainWindow :=
  { features_ := [], features_test_ := [], targets_ := [], targets_test_ := []
    stabilizer_ := [], stabilizer_test_ := [], dataRows_ := [], columnNames_ := []
    featureTable_ := [], targetBox_count := 0, targetBox_currentIndex := -1
    stabilizerBox_count := 0, stabilizerBox_currentIndex := -1
    taskBox_isRegression := true
    iterEdit_ := "10", depthEdit_ := "3", etaEdit_ := "0.1", lambdaEdit_ := "1"
    trainButton_enabled := false, saveButton_enabled := false
    loadModelButton_enabled := false, predictButton_enabled := false
    model_ := none, pendingDelete := []
    engine := { log := [], calls := 0, live := [], fresh := 0 } }

/-- What the file dialog and the file system give `loadCSV`: no file name, a file that
cannot be opened, or the lines `QTextStream::readLine` returns, in order. -/
inductive FileInput where
  | cancelled
  | cannotOpen
  | content (lines : List (List Char))
deriving DecidableEq

/-- The Qt text functions `loadCSV` relies on: `QString::toDouble` (`none` when `ok` is
false) and `QChar::isSpace`, which decides what `trimmed()` removes. -/
structure TextEnv where
  toDouble : List Char → Option ℚ
  isSpace : Char → Bool

/-- The call `line.split(',')`: the pieces between the commas, empty pieces included. -/
def splitComma : List Char → List (List Char)
  | [] => [[]]
  | c :: cs =>
    if c = ',' then [] :: splitComma cs
    else
      match splitComma cs with
      | [] => [[c]]
      | p :: ps => (c :: p) :: ps

/-- The inner loop of `loadCSV` over the parts of a line: each part converted by `toDouble`,
with `0.0` when the conversion fails. -/
def parseParts (tenv : TextEnv) (parts : List (List Char)) : List ℚ :=
  parts.map (fun p => match tenv.toDouble p with
    | some val => val
    | none => 0)

/-- The loop `while (!in.atEnd())` of `loadCSV` over the remaining lines, started with the rows
read so far: the local `dataRows` at loop exit, or `none` when a line's number of parts differs
from `ncols` and the slot returns from inside the loop. -/
def readRows (tenv : TextEnv) (ncols : Nat) : List (List Char) → List (List ℚ) →
    Option (List (List ℚ))
  | [], dataRows => some dataRows
  | line :: rest, dataRows =>
    if line.all tenv.isSpace then readRows tenv ncols rest dataRows
    else
      let parts := splitComma line
      if parts.length ≠ ncols then none
      else readRows tenv ncols rest (dataRows ++ [parseParts tenv parts])

/-- The slot `MainWindow::loadCSV`: the window afterwards and the message box shown, if
any. -/
def loadCSV (tenv : TextEnv) (w : MainWindow) (file : FileInput) : MainWindow × Option Message :=
  match file with
  | FileInput.cancelled => (w, none)
  | FileInput.cannotOpen => (w, some (Message.warning "Cannot open file"))
  | FileInput.content [] => (w, some (Message.warning "Empty file"))
  | FileInput.content (headerLine :: rest) =>
    let columnNames := splitComma headerLine
    let w1 : MainWindow :=
      { w with
        columnNames_ := columnNames
        targetBox_count := columnNames.length
        targetBox_currentIndex := if columnNames.length = 0 then -1 else 0
        stabilizerBox_count := columnNames.length + 1
        stabilizerBox_currentIndex := 0
        featureTable_ := List.replicate columnNames.length false }
    match readRows tenv columnNames.length rest [] with
    | none => (w1, some (Message.warning "Inconsistent number of columns"))
    | some dataRows =>
      ({ w1 with
          features_ := [], targets_ := [], stabilizer_ := []
          features_test_ := [], targets_test_ := [], stabilizer_test_ := []
          trainButton_enabled := true
          dataRows_ := dataRows },
        some (Message.information
          ("Loaded " ++ toString dataRows.length ++ " rows, "
            ++ toString columnNames.length ++ " columns")))

/-- Running `loadCSV` on a sequence of files, one after the other. -/
def loadAll (tenv : TextEnv) (w : MainWindow) (files : List FileInput) : MainWindow :=
  files.foldl (fun w file => (loadCSV tenv w file).1) w

/-- The first loop of `startTraining`: the rows of `featureTable_` whose item is checked. -/
def featureIndicesOf (featureTable_ : List Bool) : List Nat :=
  (List.range featureTable_.length).filter (fun i => featureTable_.getD i false)

/-- The statement `int trainCount = totalRows * 0.66;`. The product is modelled exactly;
the `double` nearest to 0.66 lies above 0.66 by less than `2^-54`, so for every `int`
row count the truncated `double` product is the same integer. -/
def trainCountOf (totalRows : Nat) : Int :=
  truncToInt ((totalRows : ℚ) * (66 / 100))

/-- The six vectors the split loop of `startTraining` fills. -/
structure Split where
  features_ : List (List ℚ)
  targets_ : List ℚ
  stabilizer_ : List ℚ
  features_test_ : List (List ℚ)
  targets_test_ : List ℚ
  stabilizer_test_ : List ℚ
deriving DecidableEq

/-- The six vectors after the `clear()` calls. -/
def Split.empty : Split :=
  { features_ := [], targets_ := [], stabilizer_ := []
    features_test_ := [], targets_test_ := [], stabilizer_test_ := [] }

/-- The inner loop `for (int fidx : featureIndices) featRow.append(dataRows_[row][fidx])` for
the source row `r`; `none` when an index lies outside the row. -/
def featRowOf (r : List ℚ) (featureIndices : List Nat) : Option (List ℚ) :=
  featureIndices.mapM (fun fidx => r[fidx]?)

/-- One iteration `i` of the split loop of `startTraining`. A read outside a vector, which
the C++ leaves undefined, gives `none`. -/
def splitStep (dataRows_ : List (List ℚ)) (featureIndices : List Nat) (targetIdx : Nat)
    (stabilizerIdx : Int) (trainCount : Int) (indices : List Nat) (acc : Split) (i : Nat) :
    Option Split := do
  let row ← indices[i]?
  let r ← dataRows_[row]?
  let featRow ← featRowOf r featureIndices
  let target ← r[targetIdx]?
  if (i : Int) < trainCount then
    let acc1 : Split :=
      { acc with features_ := acc.features_ ++ [featRow], targets_ := acc.targets_ ++ [target] }
    if stabilizerIdx ≥ 0 then
      let s ← r[stabilizerIdx.toNat]?
      pure { acc1 with stabilizer_ := acc1.stabilizer_ ++ [s] }
    else
      pure acc1
  else
    let acc1 : Split :=
      { acc with
        features_test_ := acc.features_test_ ++ [featRow]
        targets_test_ := acc.targets_test_ ++ [target] }
    if stabilizerIdx ≥ 0 then
      let s ← r[stabilizerIdx.toNat]?
      pure { acc1 with stabilizer_test_ := acc1.stabilizer_test_ ++ [s] }
    else
      pure acc1

/-- The split loop `for (int i = 0; i < totalRows; ++i)` of `startTraining`, from the cleared
vectors. -/
def splitRows (dataRows_ : List (List ℚ)) (featureIndices : List Nat) (targetIdx : Nat)
    (stabilizerIdx : Int) (trainCount : Int) (indices : List Nat) : Option Split :=
  (List.range dataRows_.length).foldlM
    (splitStep dataRows_ featureIndices targetIdx stabilizerIdx trainCount indices) Split.empty

/-- How the slot `startTraining` ends: with a message box, or with an exception thrown by
`Fit` leaving the slot. -/
inductive Outcome where
  | message (m : Message)
  | thrown (e : Error)
deriving DecidableEq

/-- The `params` map `startTraining` builds from the four line edits. -/
def paramsOf (w : MainWindow) : List (String × String) :=
  QMap.insert (QMap.insert (QMap.insert (QMap.insert [] "num_boost_round" w.iterEdit_)
    "max_depth" w.depthEdit_) "eta" w.etaEdit_) "lambda" w.lambdaEdit_

/-- The slot `MainWindow::startTraining`. `indices` is the vector `indices` after
`std::shuffle`. The result is `none` when the split loop reads outside a vector. -/
def startTraining (env : Env) (w : MainWindow) (indices : List Nat) :
    Option (MainWindow × Outcome) :=
  let featureIndices := featureIndicesOf w.featureTable_
  if featureIndices.isEmpty then
    some (w, Outcome.message (Message.warning "Select at least one feature"))
  else
    let targetIdx := w.targetBox_currentIndex
    if targetIdx < 0 then
      some (w, Outcome.message (Message.warning "Select target column"))
    else
      let stabilizerIdx := w.stabilizerBox_currentIndex - 1
      let totalRows := w.dataRows_.length
      if totalRows < 2 then
        some (w, Outcome.message (Message.warning "Not enough data"))
      else
        let trainCount := trainCountOf totalRows
        match splitRows w.dataRows_ featureIndices targetIdx.toNat stabilizerIdx trainCount
            indices with
        | none => none
        | some sp =>
          let w1 : MainWindow :=
            { w with
              features_ := sp.features_, targets_ := sp.targets_, stabilizer_ := sp.stabilizer_
              features_test_ := sp.features_test_, targets_test_ := sp.targets_test_
              stabilizer_test_ := sp.stabilizer_test_ }
          let params := paramsOf w1
          let w2 : MainWindow :=
            match w1.model_ with
            | some old => { w1 with pendingDelete := w1.pendingDelete ++ [old], model_ := none }
            | none => w1
          let isRegression := w2.taskBox_isRegression
          let kind := if isRegression then Kind.regressor else Kind.classifier
          let fresh : XGBModel :=
            if isRegression then XGBRegressor.new params else XGBClassifier.new params
          let fit : Facade Unit :=
            if !isRegression && !w2.stabilizer_.isEmpty then
              XGBClassifier.Fit env w2.features_ w2.targets_ w2.stabilizer_ 0 1
            else if isRegression then
              XGBRegressor.Fit env w2.features_ w2.targets_ 0 1
            else
              XGBClassifier.FitNoStabilizer env w2.features_ w2.targets_ 0 1
          match fit { engine := w2.engine, self := fresh } with
          | (Except.error e, m) =>
            some ({ w2 with model_ := some (kind, m.self), engine := m.engine },
              Outcome.thrown e)
          | (Except.ok _, m) =>
            some ({ w2 with
                    model_ := some (kind, m.self), engine := m.engine
                    saveButton_enabled := true, loadModelButton_enabled := true
                    predictButton_enabled := true },
              Outcome.message (Message.information "Training finished."))

/-- What the save dialog and the file system give `predict`: no file name, a file that
cannot be opened for writing, or a writable file. -/
inductive SaveInput where
  | cancelled
  | cannotOpen
  | writable
deriving DecidableEq

/-- The text of a predicted value in the predictions file: `number` on a finite value, and
`nan` for NaN. -/
def Label.print (number : ℚ → String) : Label → String
  | Label.num q => number q
  | Label.nan => "nan"

/-- The slot `MainWindow::predict`. `out_result` is the vector the engine returns from
`XGBoosterPredict`, `number` is `QString::number` on a finite `double`. The result is the window
afterwards, how the slot ended (`none` when it returned without a message box) and the lines
written to the predictions file, if one was written. -/
def predict (env : Env) (number : ℚ → String) (w : MainWindow) (out_result : List ℚ)
    (save : SaveInput) : MainWindow × Option Outcome × Option (List String) :=
  match w.model_ with
  | none => (w, some (Outcome.message (Message.warning "No model loaded")), none)
  | some (kind, self) =>
    if w.features_test_.isEmpty then
      (w, some (Outcome.message (Message.warning "No test data available")), none)
    else
      let call : Facade (List Label) :=
        match kind with
        | Kind.regressor => do
          let preds ← XGBRegressor.Predict env w.features_test_ out_result
          pure (preds.map Label.num)
        | Kind.classifier => XGBClassifier.Predict env w.features_test_ out_result
      match call { engine := w.engine, self := self } with
      | (Except.error e, m) =>
        ({ w with model_ := some (kind, m.self), engine := m.engine },
          some (Outcome.thrown e), none)
      | (Except.ok preds, m) =>
        let w1 : MainWindow := { w with model_ := some (kind, m.self), engine := m.engine }
        if preds.length ≠ w1.targets_test_.length then
          (w1, some (Outcome.message (Message.warning "Prediction size mismatch")), none)
        else
          match save with
          | SaveInput.cancelled => (w1, none, none)
          | SaveInput.cannotOpen =>
            (w1, some (Outcome.message (Message.warning "Cannot open file for writing")), none)
          | SaveInput.writable =>
            (w1, some (Outcome.message (Message.information "Predictions saved.")),
              some ("y_true,y_pred" ::
                (List.zipWith (fun t p => number t ++ "," ++ Label.print number p)
                  w1.targets_test_ preds)))

/-! ## Predicates and fixtures used in the statements -/

/-- Whether an event belongs to the training trace: an update step or a progress report. -/
def Event.isTraining : Event → Bool
  | Event.XGBoosterUpdateOneIter _ _ _ => true
  | Event.progress _ => true
  | _ => false

/-- The update steps `0, ..., k-1` on `booster_` and `dtrain_`, each followed by its
progress report `start + width * (i + 1) / n_iter`. -/
def loopEvents (booster_ dtrain_ : Option Nat) (n_iter : Int) (start width : ℚ) (k : Nat) :
    List Event :=
  (List.range k).flatMap (fun i =>
    [Event.XGBoosterUpdateOneIter booster_ (i : Int) dtrain_,
     Event.progress (start + width * ((i : ℚ) + 1) / (n_iter : ℚ))])

/-- The warning a cancelled training logs: present when the loop stopped at a step
`k < n_iter`, absent when it ran to completion. -/
def cancelEvents (n_iter : Int) (k : Nat) : List Event :=
  if (k : Int) < n_iter then [Event.qWarning "Training was terminated by user."] else []

/-- The entry of the data matrix at a row and a column (0 outside the matrix). -/
def cell (dataRows_ : List (List ℚ)) (row col : Nat) : ℚ :=
  (dataRows_.getD row []).getD col 0

/-- The six vectors after the first `n` iterations of the split loop, in closed form: the
shuffled rows at the positions below `min n tc` feed the training vectors, those at the
positions from `tc` up to `n` the test vectors. -/
def splitAfter (dataRows_ : List (List ℚ)) (featureIndices : List Nat) (targetIdx : Nat)
    (stabilizerIdx : Int) (tc : Nat) (indices : List Nat) (n : Nat) : Split :=
  { features_ :=
      (indices.take (min n tc)).map (fun row => featureIndices.map (cell dataRows_ row))
    targets_ := (indices.take (min n tc)).map (fun row => cell dataRows_ row targetIdx)
    stabilizer_ :=
      if 0 ≤ stabilizerIdx then
        (indices.take (min n tc)).map (fun row => cell dataRows_ row stabilizerIdx.toNat)
      else []
    features_test_ :=
      ((indices.take n).drop tc).map (fun row => featureIndices.map (cell dataRows_ row))
    targets_test_ := ((indices.take n).drop tc).map (fun row => cell dataRows_ row targetIdx)
    stabilizer_test_ :=
      if 0 ≤ stabilizerIdx then
        ((indices.take n).drop tc).map (fun row => cell dataRows_ row stabilizerIdx.toNat)
      else [] }

/-- The window holds a dataset and a selection over it: every data row is as long as the
header, the feature table has one row per column, and the target and stabilizer selections
are items of their boxes (the stabilizer box has the extra first item "None"). -/
structure MainWindow.HoldsDataset (w : MainWindow) : Prop where
  rows : ∀ r ∈ w.dataRows_, r.length = w.columnNames_.length
  table : w.featureTable_.length = w.columnNames_.length
  target : w.targetBox_currentIndex < (w.columnNames_.length : Int)
  stabilizer : w.stabilizerBox_currentIndex ≤ (w.columnNames_.length : Int)

/-- No handle is leaked: every live engine handle is the one `dtrain_` or the one
`booster_` refers to. (For an engine used by this facade alone.) -/
def Machine.NoLeak (m : Machine) : Prop :=
  ∀ h ∈ m.engine.live, m.self.dtrain_ = some h ∨ m.self.booster_ = some h

instance (m : Machine) : Decidable m.NoLeak := by
  unfold Machine.NoLeak
  infer_instance

/-- Whether an event frees a handle. -/
def Event.isFree : Event → Bool
  | Event.XGDMatrixFree _ => true
  | Event.XGBoosterFree _ => true
  | _ => false

/-- The member function throws nothing but the `runtime_error` of a failed engine call. -/
def OnlyRuntime {α : Type} (x : Facade α) : Prop :=
  ∀ m e, (x m).1 = Except.error e → e = Error.runtime_error

/-- Reading an unsigned decimal integer for the examples; `none` for every other text. -/
def digitsToNat (p : List Char) : Option Nat :=
  if p.isEmpty || !p.all Char.isDigit then none
  else some (p.foldl (fun n c => 10 * n + (c.toNat - 48)) 0)

/-- The text functions used in the examples: `toDouble` reads unsigned decimal integers and
fails on every other text, `isSpace` is `Char.isWhitespace`. -/
def exampleText : TextEnv :=
  { toDouble := fun p => (digitsToNat p).map (fun n => (n : ℚ)), isSpace := Char.isWhitespace }

/-- The surroundings used in the examples: every engine call succeeds, the cancellation flag
is never set, and `toInt` reads unsigned decimal integers and gives 0 on every other text. -/
def exampleEnv : Env :=
  { status := fun _ => 0, terminated := fun _ => false
    toInt := fun s => ((digitsToNat s.toList).getD 0 : Nat) }

/-- A regressor constructed with `num_boost_round = 3`, on an unused engine. -/
def exampleMachine : Machine :=
  { engine := { log := [], calls := 0, live := [], fresh := 0 }
    self := XGBRegressor.new [("num_boost_round", "3")] }

/-- The window of the end-to-end example: the file with header `a,b,y` and the rows
`(1,2,10)`, `(2,3,20)`, `(3,4,30)` loaded into a new window, then the features `a`, `b`
checked, the target `y` selected, no stabilizer, and one boosting round. -/
def exampleWindow : MainWindow :=
  { (loadCSV exampleText MainWindow.init
      (FileInput.content ["a,b,y".toList, "1,2,10".toList, "2,3,20".toList,
        "3,4,30".toList])).1 with
    featureTable_ := [true, true, false]
    targetBox_currentIndex := 2
    iterEdit_ := "1" }

/-- A classifier constructed with `num_boost_round = 3`, on an unused engine. -/
def exampleClassifier : Machine :=
  { engine := { log := [], calls := 0, live := [], fresh := 0 }
    self := XGBClassifier.new [("num_boost_round", "3")] }

/-- The labels `0, 1, ..., 16777217`: `2^24 + 2` distinct finite values. -/
@[irreducible] def manyLabels : List Label :=
  (List.range 16777218).map (fun (n : ℕ) => Label.num (n : ℚ))

/-- Every event the member function logs satisfies `P`; the log is only appended to. -/
def LogsOnly {α : Type} (P : Event → Prop) (x : Facade α) : Prop :=
  ∀ m, ∃ evs, (x m).2.engine.log = m.engine.log ++ evs ∧ ∀ ev ∈ evs, P ev

/-- If the event attaches a "weight" vector, the vector is `ws`. -/
def Event.weightIs (ws : List ℚ) (ev : Event) : Prop :=
  ∀ h info, ev = Event.XGDMatrixSetFloatInfo h "weight" info → info = ws

/-- The regressor of the example after one `Fit` on a 2 x 2 feature matrix. -/
def exampleFitOnce : Machine :=
  (XGBRegressor.Fit exampleEnv [[1, 2], [3, 4]] [5, 6] 0 1 exampleMachine).2

/-- The same regressor after a second `Fit` on the same instance. -/
def exampleFitTwice : Machine :=
  (XGBRegressor.Fit exampleEnv [[1, 2], [3, 4]] [5, 6] 0 1 exampleFitOnce).2

/-- The regressor of the example after one `Fit` followed by `LoadModel` on the same
instance. -/
def exampleFitThenLoad : Machine :=
  (LoadModel exampleEnv "saved.model" exampleFitOnce).2

/-! # Theorems -/

/-! ### Facts about `Label.eq`, `intToFloat` and the association-list model of `QHash` -/

theorem Label.eq_eq_decide (a x : Label) (hx : x ≠ Label.nan) :
    Label.eq a x = decide (a = x) := by
  cases x with
  | nan => exact absurd rfl hx
  | num b =>
    cases a with
    | nan => simp [Label.eq]
    | num c => simp [Label.eq]

theorem Label.eq_nan (a : Label) : Label.eq a Label.nan = false := by
  cases a <;> rfl

theorem QHash.contains_nan (h : QHash) : h.contains Label.nan = false := by
  simp [QHash.contains, Label.eq_nan]

theorem QHash.contains_eq (h : QHash) (x : Label) (hx : x ≠ Label.nan) :
    h.contains x = h.any (fun p => decide (p.1 = x)) := by
  simp only [QHash.contains, Label.eq_eq_decide _ x hx]

theorem QHash.value_eq (h : QHash) (x : Label) (hx : x ≠ Label.nan) :
    h.value x = (match h.find? (fun p => decide (p.1 = x)) with
      | some p => p.2
      | none => 0) := by
  simp only [QHash.value, Label.eq_eq_decide _ x hx]

theorem QHash.insert_eq (h : QHash) (k : Label) (v : Int) (hk : k ≠ Label.nan) :
    h.insert k v = (k, v) :: h.filter (fun p => !decide (p.1 = k)) := by
  simp only [QHash.insert, Label.eq_eq_decide _ k hk]

theorem QHash.contains_insert (h : QHash) (k : Label) (v : Int) (x : Label)
    (hk : k ≠ Label.nan) (hx : x ≠ Label.nan) :
    (h.insert k v).contains x = true ↔ x = k ∨ h.contains x = true := by
  rw [QHash.contains_eq _ x hx, QHash.contains_eq _ x hx, QHash.insert_eq _ k v hk]
  simp only [List.any_cons, Bool.or_eq_true, decide_eq_true_eq,
    List.any_eq_true, List.mem_filter, Bool.not_eq_true', decide_eq_false_iff_not]
  constructor
  · rintro (h1 | ⟨p, ⟨hp, _⟩, rfl⟩)
    · exact Or.inl h1.symm
    · exact Or.inr ⟨p, hp, rfl⟩
  · rintro (h1 | ⟨p, hp, rfl⟩)
    · exact Or.inl h1.symm
    · by_cases hpk : p.1 = k
      · exact Or.inl hpk.symm
      · exact Or.inr ⟨p, ⟨hp, hpk⟩, rfl⟩

theorem QHash.value_insert_self (h : QHash) (k : Label) (v : Int) (hk : k ≠ Label.nan) :
    (h.insert k v).value k = v := by
  rw [QHash.value_eq _ k hk, QHash.insert_eq _ k v hk]
  simp

theorem find_filter_ne (h : QHash) (k x : Label) (hx : x ≠ k) :
    (h.filter (fun p => !decide (p.1 = k))).find? (fun p => decide (p.1 = x))
      = h.find? (fun p => decide (p.1 = x)) := by
  induction h with
  | nil => rfl
  | cons p t ih =>
    obtain ⟨a, b⟩ := p
    by_cases hk : a = k
    · have hpx : ¬ a = x := fun e => hx (e ▸ hk)
      have h2 : decide (a = x) = false := by simp [hpx]
      rw [List.filter_cons_of_neg (by simpa using hk), List.find?_cons, ih]
      simp only [h2]
    · rw [List.filter_cons_of_pos (by simpa using hk), List.find?_cons, List.find?_cons, ih]

theorem QHash.value_insert_of_ne (h : QHash) (k : Label) (v : Int) (x : Label) (hx : x ≠ k)
    (hk : k ≠ Label.nan) (hxn : x ≠ Label.nan) :
    (h.insert k v).value x = h.value x := by
  have hkx : ¬ k = x := fun e => hx e.symm
  rw [QHash.value_eq _ x hxn, QHash.value_eq _ x hxn, QHash.insert_eq _ k v hk]
  simp [List.find?_cons, hkx, find_filter_ne h k x hx]

theorem QHash.touch_of_contains (h : QHash) (x : Label) (hc : h.contains x = true) :
    h.touch x = h := by
  simp [QHash.touch, hc]

/-- Up to `2^24` the conversion of an index to `float` is exact. -/
theorem intToFloat_natCast (k : ℕ) (hk : k ≤ 16777216) : intToFloat (k : Int) = (k : ℚ) := by
  rcases Nat.lt_or_ge k 16777216 with hlt | hge
  · have he : droppedBits 8 k = 0 := by
      simp only [droppedBits]
      rw [if_pos (by norm_num; exact hlt)]
    have hsign : Int.sign (k : Int) * (k : Int) = (k : Int) := by
      by_cases h0 : k = 0
      · subst h0; simp
      · rw [Int.sign_eq_one_of_pos (by omega)]; simp
    simp only [intToFloat, Int.natAbs_ofNat, he, pow_zero, Nat.div_one, Nat.mod_one, mul_zero,
      Nat.lt_irrefl, false_or, mul_one]
    have hc : ¬ (1 < 0 ∨ (0 : ℕ) = 1 ∧ k % 2 = 1) := by omega
    rw [if_neg hc, hsign]
    simp
  · have hk2 : k = 16777216 := by omega
    subst hk2
    decide!

/-- The index `2^24 + 1` is not a `float`: it is converted to `2^24`. -/
theorem intToFloat_first_inexact : intToFloat 16777217 = 16777216 := by
  decide!

/-! ### The loop invariant of `EncodeLabels`, established -/

theorem encodeInv_init : EncodeInv [] encodeInit where
  idx_eq := rfl
  contains_iff := by intro x _; simp [encodeInit, QHash.contains]
  value_eq := by intro x hx; simp [encodeInit] at hx
  encoded_eq := rfl
  mem_iff := by intro x; simp [encodeInit]
  order := List.Pairwise.nil

theorem encodeInv_step (pre : List Label) (s : EncodeState) (label : Label)
    (hpre : ∀ l ∈ pre, l ≠ Label.nan) (hlabel : label ≠ Label.nan) (inv : EncodeInv pre s) :
    EncodeInv (pre ++ [label]) (encodeStep s label) := by
  have hinvn : ∀ x ∈ s.index_to_label_, x ≠ Label.nan := fun x hx =>
    hpre x ((inv.mem_iff x).1 hx)
  by_cases hc : s.label_to_index_.contains label = true
  · -- the label is already known
    have hmem : label ∈ s.index_to_label_ := (inv.contains_iff label hlabel).1 hc
    have hpre : label ∈ pre := (inv.mem_iff label).1 hmem
    have hstep : encodeStep s label =
        { s with encoded := s.encoded ++ [intToFloat (s.label_to_index_.value label)] } := by
      simp [encodeStep, hc, QHash.touch_of_contains]
    rw [hstep]
    refine ⟨inv.idx_eq, inv.contains_iff, inv.value_eq, ?_, ?_, ?_⟩
    · simp only [List.map_append, List.map_cons, List.map_nil]
      rw [inv.encoded_eq, inv.value_eq label hmem]
    · intro x
      simp only [List.mem_append, List.mem_singleton]
      constructor
      · intro hx; exact Or.inl ((inv.mem_iff x).1 hx)
      · rintro (hx | rfl)
        · exact (inv.mem_iff x).2 hx
        · exact hmem
    · refine List.Pairwise.imp_of_mem ?_ inv.order
      intro a b ha hb hab
      rw [List.indexOf_append_of_mem ((inv.mem_iff a).1 ha),
        List.indexOf_append_of_mem ((inv.mem_iff b).1 hb)]
      exact hab
  · -- a new label
    have hnmem : label ∉ s.index_to_label_ := fun h =>
      hc ((inv.contains_iff label hlabel).2 h)
    have hnpre : label ∉ pre := fun h => hnmem ((inv.mem_iff label).2 h)
    have hcn : (s.label_to_index_.insert label s.idx).contains label = true :=
      (QHash.contains_insert _ _ _ _ hlabel hlabel).2 (Or.inl rfl)
    have hstep : encodeStep s label =
        { label_to_index_ := s.label_to_index_.insert label s.idx
          index_to_label_ := s.index_to_label_ ++ [label]
          idx := s.idx + 1
          encoded := s.encoded ++ [intToFloat s.idx] } := by
      simp [encodeStep, hc, QHash.value_insert_self _ _ _ hlabel,
        QHash.touch_of_contains _ _ hcn]
    rw [hstep]
    refine ⟨?_, ?_, ?_, ?_, ?_, ?_⟩
    · simp [inv.idx_eq]
    · intro x hx
      simp only [QHash.contains_insert _ _ _ _ hlabel hx, List.mem_append, List.mem_singleton,
        inv.contains_iff x hx]
      tauto
    · intro x hx
      simp only [List.mem_append, List.mem_singleton] at hx
      rcases hx with hx | rfl
      · have hne : x ≠ label := fun e => hnmem (e ▸ hx)
        simp only
        rw [QHash.value_insert_of_ne _ _ _ _ hne hlabel (hinvn x hx), inv.value_eq x hx,
          List.indexOf_append_of_mem hx]
      · simp only
        rw [QHash.value_insert_self _ _ _ hlabel, List.indexOf_append_of_not_mem hnmem,
          inv.idx_eq]
        simp
    · simp only [List.map_append, List.map_cons, List.map_nil]
      rw [inv.encoded_eq, List.indexOf_append_of_not_mem hnmem, inv.idx_eq]
      congr 1
      · apply List.map_congr_left
        intro y hy
        rw [List.indexOf_append_of_mem ((inv.mem_iff y).2 hy)]
      · simp
    · intro x
      simp only [List.mem_append, List.mem_singleton, inv.mem_iff]
    · rw [List.pairwise_append]
      refine ⟨?_, List.pairwise_singleton _ _, ?_⟩
      · refine List.Pairwise.imp_of_mem ?_ inv.order
        intro a b ha hb hab
        rw [List.indexOf_append_of_mem ((inv.mem_iff a).1 ha),
          List.indexOf_append_of_mem ((inv.mem_iff b).1 hb)]
        exact hab
      · intro a ha b hb
        rw [List.mem_singleton] at hb
        subst hb
        have hap : a ∈ pre := (inv.mem_iff a).1 ha
        rw [List.indexOf_append_of_mem hap, List.indexOf_append_of_not_mem hnpre]
        have := List.indexOf_lt_length.2 hap
        omega

theorem encodeLabels_append (pre : List Label) (label : Label) :
    EncodeLabels (pre ++ [label]) = encodeStep (EncodeLabels pre) label := by
  simp [EncodeLabels, List.foldl_append]

theorem encodeInv_EncodeLabels (y : List Label) (hy : ∀ l ∈ y, l ≠ Label.nan) :
    EncodeInv y (EncodeLabels y) := by
  induction y using List.reverseRecOn with
  | nil => exact encodeInv_init
  | append_singleton pre label ih =>
    rw [encodeLabels_append]
    have hpre : ∀ l ∈ pre, l ≠ Label.nan := fun l hl => hy l (List.mem_append_left _ hl)
    exact encodeInv_step pre _ label hpre (hy label (by simp)) (ih hpre)

/-- One code is returned per label, NaN labels included. -/
theorem EncodeLabels_encoded_length (y : List Label) :
    (EncodeLabels y).encoded.length = y.length := by
  induction y using List.reverseRecOn with
  | nil => rfl
  | append_singleton pre label ih =>
    rw [encodeLabels_append]
    simp only [encodeStep, List.length_append, List.length_singleton]
    split <;> simp [ih]

/-- The number of distinct labels is the length of the inverse list. -/
theorem index_to_label_length (ys : List Label) (hy : ∀ l ∈ ys, l ≠ Label.nan) :
    (EncodeLabels ys).index_to_label_.length = ys.toFinset.card := by
  have inv := encodeInv_EncodeLabels ys hy
  have hnd : (EncodeLabels ys).index_to_label_.Nodup :=
    inv.order.imp (fun hab e => by rw [e] at hab; exact lt_irrefl _ hab)
  rw [← List.toFinset_card_of_nodup hnd]
  congr 1
  ext x
  simp [inv.mem_iff]

/-- On labels that are pairwise distinct and not NaN the inverse list is the label list
itself and the codes are the positions `0, 1, ...`, each converted to `float`. -/
theorem EncodeLabels_of_nodup (ys : List Label) (hy : ∀ l ∈ ys, l ≠ Label.nan)
    (hnd : ys.Nodup) :
    (EncodeLabels ys).index_to_label_ = ys ∧
    (EncodeLabels ys).encoded
      = (List.range ys.length).map (fun (i : ℕ) => intToFloat (i : Int)) := by
  induction ys using List.reverseRecOn with
  | nil => exact ⟨rfl, rfl⟩
  | append_singleton pre label ih =>
    have hpre : ∀ l ∈ pre, l ≠ Label.nan := fun l hl => hy l (List.mem_append_left _ hl)
    have hlabel : label ≠ Label.nan := hy label (by simp)
    have hnd2 := List.nodup_append.1 hnd
    have hnpre : label ∉ pre := fun h => hnd2.2.2 h (List.mem_singleton_self label)
    obtain ⟨ih1, ih2⟩ := ih hpre hnd2.1
    have inv := encodeInv_EncodeLabels pre hpre
    have hc : ¬ (EncodeLabels pre).label_to_index_.contains label = true := fun h =>
      hnpre ((inv.mem_iff label).1 ((inv.contains_iff label hlabel).1 h))
    have hcn : ((EncodeLabels pre).label_to_index_.insert label (EncodeLabels pre).idx).contains
        label = true :=
      (QHash.contains_insert _ _ _ _ hlabel hlabel).2 (Or.inl rfl)
    rw [encodeLabels_append]
    constructor
    · simp [encodeStep, hc, ih1]
    · simp only [encodeStep, hc, Bool.not_false, Bool.false_eq_true, ite_true, not_false_eq_true,
        Bool.not_eq_true', QHash.value_insert_self _ _ _ hlabel, ih2, inv.idx_eq, ih1,
        List.length_append, List.length_singleton, List.range_succ, List.map_append,
        List.map_cons, List.map_nil]

/-! ### Decoding -/

theorem truncToInt_natCast_add_half (n : ℕ) : truncToInt ((n : ℚ) + 1 / 2) = (n : Int) := by
  have h0 : (0 : ℚ) ≤ (n : ℚ) + 1 / 2 := by positivity
  rw [truncToInt, if_pos h0, Int.floor_eq_iff]
  constructor
  · push_cast; linarith
  · push_cast; linarith

theorem decodeOne_natCast (index_to_label_ : List Label) (n : ℕ)
    (h : n < index_to_label_.length) :
    decodeOne index_to_label_ (n : ℚ) = index_to_label_.get ⟨n, h⟩ := by
  have hr : 0 ≤ (n : Int) ∧ (n : Int) < (index_to_label_.length : Int) := by omega
  simp only [decodeOne, truncToInt_natCast_add_half, hr, and_self, dite_true, Int.toNat_ofNat]

theorem DecodeLabels_length (index_to_label_ : List Label) (pred : List ℚ) :
    (DecodeLabels index_to_label_ pred).length = pred.length := by
  simp [DecodeLabels]

/-- From `-1/2` upward the truncation of `val + 0.5` is the nearest integer, so there the loop
body of `DecodeLabels` agrees with the specification's reading. -/
theorem decodeOne_eq_spec_of_ge (index_to_label_ : List Label) (val : ℚ)
    (h : -(1 / 2) ≤ val) :
    decodeOne index_to_label_ val = decodeOneSpec index_to_label_ val := by
  have h0 : (0 : ℚ) ≤ val + 1 / 2 := by linarith
  have ht : truncToInt (val + 1 / 2) = round val := by
    rw [truncToInt, if_pos h0, round_eq]
  simp only [decodeOne, decodeOneSpec, ht]

/-- Strictly between `-3/2` and `-1/2` the truncation of `val + 0.5` is 0 while the nearest
integer is `-1`: on a non-empty inverse list the loop body of `DecodeLabels` returns the first
label where the specification's reading returns the sentinel. -/
theorem decodeOne_of_neg (a : Label) (rest : List Label) (val : ℚ) (h1 : -(3 / 2) < val)
    (h2 : val < -(1 / 2)) :
    decodeOne (a :: rest) val = a ∧ decodeOneSpec (a :: rest) val = Label.num (-999) := by
  have hneg : ¬ (0 : ℚ) ≤ val + 1 / 2 := by linarith
  have ht : truncToInt (val + 1 / 2) = 0 := by
    rw [truncToInt, if_neg hneg, Int.ceil_eq_iff]
    constructor
    · push_cast; linarith
    · push_cast; linarith
  have hr : round val = -1 := by
    rw [round_eq, Int.floor_eq_iff]
    constructor
    · push_cast; linarith
    · push_cast; linarith
  constructor
  · have hr0 : 0 ≤ (0 : Int) ∧ (0 : Int) < ((a :: rest).length : Int) := by
      simp only [List.length_cons]; omega
    simp only [decodeOne, ht, hr0, and_self, dite_true]
    rfl
  · simp [decodeOneSpec, hr]

/-! ### The labels `0, ..., 2^24 + 1` -/

theorem manyLabels_length : manyLabels.length = 16777218 := by
  unfold manyLabels
  rw [List.length_map, List.length_range]

theorem manyLabels_not_nan : ∀ l ∈ manyLabels, l ≠ Label.nan := by
  intro l hl
  unfold manyLabels at hl
  rw [List.mem_map] at hl
  obtain ⟨n, _, rfl⟩ := hl
  exact Label.noConfusion

theorem manyLabels_nodup : manyLabels.Nodup := by
  unfold manyLabels
  refine List.Nodup.map ?_ (List.nodup_range _)
  intro a b hab
  exact Nat.cast_injective (Label.num.inj hab)

theorem manyLabels_getElem? (i : ℕ) (hi : i < 16777218) :
    manyLabels[i]? = some (Label.num (i : ℚ)) := by
  unfold manyLabels
  rw [List.getElem?_map, List.getElem?_range hi]
  rfl

/-- On the labels `0, ..., 2^24 + 1` the code returned for the last label, 16777217, is the
`float` 16777216, and `DecodeLabels` turns it into the label 16777216. -/
theorem manyLabels_last_code :
    (EncodeLabels manyLabels).index_to_label_ = manyLabels ∧
    (EncodeLabels manyLabels).encoded[16777217]? = some 16777216 ∧
    (DecodeLabels (EncodeLabels manyLabels).index_to_label_
      (EncodeLabels manyLabels).encoded)[16777217]? = some (Label.num 16777216) := by
  obtain ⟨h1, h2⟩ := EncodeLabels_of_nodup manyLabels manyLabels_not_nan manyLabels_nodup
  have hcode : (EncodeLabels manyLabels).encoded[16777217]? = some 16777216 := by
    rw [h2, manyLabels_length, List.getElem?_map, List.getElem?_range (by norm_num)]
    simp only [Option.map_some', Nat.cast_ofNat]
    rw [intToFloat_first_inexact]
  refine ⟨h1, hcode, ?_⟩
  rw [DecodeLabels, List.getElem?_map, hcode, h1]
  simp only [Option.map_some']
  have hlt : 16777216 < manyLabels.length := by rw [manyLabels_length]; norm_num
  have hd := decodeOne_natCast manyLabels 16777216 hlt
  simp only [Nat.cast_ofNat] at hd
  rw [hd, List.get_eq_getElem]
  have hg := manyLabels_getElem? 16777216 (by norm_num)
  rw [List.getElem?_eq_getElem hlt] at hg
  simp only [Option.some.injEq, Nat.cast_ofNat] at hg
  rw [hg]

/-! ### Claims on the label codec -/

/-- C1, counterexample. The labels `[1, NaN]` are encoded to `[0, 0]` (the hash never finds
NaN and reads a default 0) and decoded to `[1, 1]`. The `2^24 + 2` distinct finite labels
`0, ..., 16777217` are not given back either: the index 16777217 is not a `float`, the code
of the last label is 16777216 and it is decoded to the label 16777216. -/
theorem DecodeLabels_EncodeLabels_counterexample :
    DecodeLabels (EncodeLabels [Label.num 1, Label.nan]).index_to_label_
        (EncodeLabels [Label.num 1, Label.nan]).encoded = [Label.num 1, Label.num 1] ∧
    manyLabels.Nodup ∧ (∀ l ∈ manyLabels, l ≠ Label.nan) ∧ manyLabels.length = 16777218 ∧
    manyLabels[16777217]? = some (Label.num 16777217) ∧
    (DecodeLabels (EncodeLabels manyLabels).index_to_label_
      (EncodeLabels manyLabels).encoded)[16777217]? = some (Label.num 16777216) ∧
    DecodeLabels (EncodeLabels manyLabels).index_to_label_ (EncodeLabels manyLabels).encoded
      ≠ manyLabels := by
  have hlast := manyLabels_getElem? 16777217 (by norm_num)
  simp only [Nat.cast_ofNat] at hlast
  refine ⟨by decide!, manyLabels_nodup, manyLabels_not_nan, manyLabels_length, hlast,
    manyLabels_last_code.2.2, ?_⟩
  intro heq
  have h1 := manyLabels_last_code.2.2
  rw [heq, hlast] at h1
  simp only [Option.some.injEq, Label.num.injEq] at h1
  norm_num at h1

/-- C1, amended. Label codec round trip: for every sequence `ys` of labels that holds no NaN
and at most `2^24 + 1` distinct values, `DecodeLabels`, run with the inverse list left by
`EncodeLabels ys` on exactly the codes `EncodeLabels ys` returned, gives back `ys` (same
length, equal element by element). -/
theorem DecodeLabels_EncodeLabels (ys : List Label) (hnan : ∀ l ∈ ys, l ≠ Label.nan)
    (hK : ys.toFinset.card ≤ 16777217) :
    DecodeLabels (EncodeLabels ys).index_to_label_ (EncodeLabels ys).encoded = ys := by
  have inv := encodeInv_EncodeLabels ys hnan
  have hlen := index_to_label_length ys hnan
  rw [inv.encoded_eq, DecodeLabels, List.map_map]
  conv_rhs => rw [← List.map_id ys]
  apply List.map_congr_left
  intro y hy
  have hmem : y ∈ (EncodeLabels ys).index_to_label_ := (inv.mem_iff y).2 hy
  have hlt := List.indexOf_lt_length.2 hmem
  simp only [Function.comp_apply, id_eq]
  rw [intToFloat_natCast _ (by omega), decodeOne_natCast _ _ hlt]
  exact List.indexOf_get hlt

/-- Witness of the amended C1 at the labels `[5, 7, 5, 9]`. -/
theorem DecodeLabels_EncodeLabels_witness :
    (∀ l ∈ [Label.num 5, Label.num 7, Label.num 5, Label.num 9], l ≠ Label.nan) ∧
    [Label.num 5, Label.num 7, Label.num 5, Label.num 9].toFinset.card ≤ 16777217 ∧
    DecodeLabels (EncodeLabels [Label.num 5, Label.num 7, Label.num 5, Label.num 9]).index_to_label_
        (EncodeLabels [Label.num 5, Label.num 7, Label.num 5, Label.num 9]).encoded
      = [Label.num 5, Label.num 7, Label.num 5, Label.num 9] :=
  ⟨by decide, by decide,
    DecodeLabels_EncodeLabels [Label.num 5, Label.num 7, Label.num 5, Label.num 9]
      (by decide) (by decide)⟩

/-- C2. At the inverse list `[5]` (so `K = 1`) and the predicted code `-1`, the nearest integer
is `-1`, outside `[0, K)`, so the claimed result is the sentinel `[-999]`; `DecodeLabels`
truncates `-1 + 0.5` to index `0` and returns the first label, `[5]`. -/
theorem DecodeLabels_negative_code :
    DecodeLabels [Label.num 5] [-1] = [Label.num 5] ∧
    DecodeLabelsSpec [Label.num 5] [-1] = [Label.num (-999)] ∧ round (-1 : ℚ) = -1 := by
  refine ⟨by decide!, ?_, ?_⟩
  · have hr : round (-1 : ℚ) = -1 := by
      have h1 : round (((-1 : ℤ) : ℚ)) = -1 := round_intCast (-1)
      simpa using h1
    simp [DecodeLabelsSpec, decodeOneSpec, hr]
  · have h1 : round (((-1 : ℤ) : ℚ)) = -1 := round_intCast (-1)
    simpa using h1

/-- C3, counterexample. For the labels `[1, NaN]` the inverse list is `[1, NaN]`, where NaN
stands at position 1, but the code returned for NaN is 0. For `[NaN, NaN]` the inverse list
is `[NaN, NaN]`: the same value twice. For the distinct finite labels `0, ..., 16777217` the
inverse list is the label list, where the last label stands at position 16777217, but the
code returned for it is 16777216. -/
theorem EncodeLabels_first_appearance_counterexample :
    ((EncodeLabels [Label.num 1, Label.nan]).index_to_label_ = [Label.num 1, Label.nan] ∧
      (EncodeLabels [Label.num 1, Label.nan]).encoded = [0, 0]) ∧
    (EncodeLabels [Label.nan, Label.nan]).index_to_label_ = [Label.nan, Label.nan] ∧
    ((EncodeLabels manyLabels).index_to_label_ = manyLabels ∧
      manyLabels[16777217]? = some (Label.num 16777217) ∧
      (EncodeLabels manyLabels).index_to_label_.indexOf (Label.num 16777217) = 16777217 ∧
      (EncodeLabels manyLabels).encoded[16777217]? = some 16777216) := by
  have hlast := manyLabels_getElem? 16777217 (by norm_num)
  simp only [Nat.cast_ofNat] at hlast
  refine ⟨by decide!, by decide!, manyLabels_last_code.1, hlast, ?_, manyLabels_last_code.2.1⟩
  rw [manyLabels_last_code.1]
  have hlt : 16777217 < manyLabels.length := by rw [manyLabels_length]; norm_num
  have hg : manyLabels[16777217] = Label.num 16777217 := by
    rw [List.getElem?_eq_getElem hlt] at hlast
    exact Option.some.inj hlast
  rw [← hg]
  exact List.indexOf_getElem manyLabels_nodup 16777217 hlt

/-- C3, amended. `EncodeLabels` assigns indices in first-appearance order: for every label
sequence `ys` without NaN the inverse list has no duplicates, holds exactly the values of
`ys`, lists them by increasing first position in `ys`, and its length `K` is the number of
distinct values; the returned codes are, position by position, the index of each label in
the inverse list converted to `float`, which is the index itself when `K ≤ 2^24 + 1`;
`[5, 7, 5, 9]` encodes to `[0, 1, 0, 2]` with inverse list `[5, 7, 9]`. -/
theorem EncodeLabels_first_appearance (ys : List Label) (hnan : ∀ l ∈ ys, l ≠ Label.nan) :
    (EncodeLabels ys).index_to_label_.Nodup ∧
    (∀ x, x ∈ (EncodeLabels ys).index_to_label_ ↔ x ∈ ys) ∧
    (EncodeLabels ys).index_to_label_.Pairwise (fun a b => ys.indexOf a < ys.indexOf b) ∧
    (EncodeLabels ys).index_to_label_.length = ys.toFinset.card ∧
    (EncodeLabels ys).encoded
      = ys.map (fun y => intToFloat (((EncodeLabels ys).index_to_label_.indexOf y : ℕ) : Int)) ∧
    (∀ y ∈ ys, (EncodeLabels ys).index_to_label_.indexOf y
      < (EncodeLabels ys).index_to_label_.length) ∧
    (ys.toFinset.card ≤ 16777217 →
      (EncodeLabels ys).encoded
        = ys.map (fun y => (((EncodeLabels ys).index_to_label_.indexOf y : ℕ) : ℚ))) ∧
    (EncodeLabels [Label.num 5, Label.num 7, Label.num 5, Label.num 9]).encoded
      = [0, 1, 0, 2] ∧
    (EncodeLabels [Label.num 5, Label.num 7, Label.num 5, Label.num 9]).index_to_label_
      = [Label.num 5, Label.num 7, Label.num 9] := by
  have inv := encodeInv_EncodeLabels ys hnan
  have hlen := index_to_label_length ys hnan
  have hnd : (EncodeLabels ys).index_to_label_.Nodup :=
    inv.order.imp (fun hab e => by rw [e] at hab; exact lt_irrefl _ hab)
  have hidx : ∀ y ∈ ys, (EncodeLabels ys).index_to_label_.indexOf y
      < (EncodeLabels ys).index_to_label_.length := fun y hy =>
    List.indexOf_lt_length.2 ((inv.mem_iff y).2 hy)
  refine ⟨hnd, inv.mem_iff, inv.order, hlen, inv.encoded_eq, hidx, ?_, by decide!, by decide!⟩
  intro hK
  rw [inv.encoded_eq]
  apply List.map_congr_left
  intro y hy
  have := hidx y hy
  exact intToFloat_natCast _ (by omega)

/-- Witness of the amended C3 at the labels `[5, 7, 5, 9]`. -/
theorem EncodeLabels_first_appearance_witness :
    (∀ l ∈ [Label.num 5, Label.num 7, Label.num 5, Label.num 9], l ≠ Label.nan) ∧
    (EncodeLabels [Label.num 5, Label.num 7, Label.num 5, Label.num 9]).index_to_label_.Nodup ∧
    (EncodeLabels [Label.num 5, Label.num 7, Label.num 5, Label.num 9]).index_to_label_.length
      = [Label.num 5, Label.num 7, Label.num 5, Label.num 9].toFinset.card ∧
    [Label.num 5, Label.num 7, Label.num 5, Label.num 9].toFinset.card ≤ 16777217 ∧
    (EncodeLabels [Label.num 5, Label.num 7, Label.num 5, Label.num 9]).encoded
      = [Label.num 5, Label.num 7, Label.num 5, Label.num 9].map (fun y =>
          (((EncodeLabels [Label.num 5, Label.num 7, Label.num 5,
            Label.num 9]).index_to_label_.indexOf y : ℕ) : ℚ)) :=
  ⟨by decide,
    (EncodeLabels_first_appearance [Label.num 5, Label.num 7, Label.num 5, Label.num 9]
      (by decide)).1,
    (EncodeLabels_first_appearance [Label.num 5, Label.num 7, Label.num 5, Label.num 9]
      (by decide)).2.2.2.1,
    by decide,
    (EncodeLabels_first_appearance [Label.num 5, Label.num 7, Label.num 5, Label.num 9]
      (by decide)).2.2.2.2.2.2.1 (by decide)⟩

/-! ### Sample weights -/

theorem rawWeight_ge (s : ℚ) : 1 / 100 ≤ rawWeight s := by
  unfold rawWeight
  by_cases h : 1 - 9 / 10 * s < 1 / 100
  · simp only [h, if_true]; exact le_refl _
  · simp only [h, if_false]; exact not_lt.1 h

theorem rawWeight_le_one (s : ℚ) (hs : 0 ≤ s) : rawWeight s ≤ 1 := by
  unfold rawWeight
  by_cases h : 1 - 9 / 10 * s < 1 / 100
  · simp only [h, if_true]; norm_num
  · simp only [h, if_false]; linarith

theorem rawWeights_length (stabilizer : List ℚ) :
    (rawWeights stabilizer).length = stabilizer.length := by
  simp [rawWeights]

theorem rawWeights_sum_ge (stabilizer : List ℚ) :
    (stabilizer.length : ℚ) * (1 / 100) ≤ (rawWeights stabilizer).sum := by
  induction stabilizer with
  | nil => simp [rawWeights]
  | cons s t ih =>
    have h := rawWeight_ge s
    simp only [rawWeights, List.map_cons, List.sum_cons, List.length_cons] at ih ⊢
    push_cast
    linarith

theorem rawWeights_sum_le (stabilizer : List ℚ) (hs : ∀ s ∈ stabilizer, 0 ≤ s) :
    (rawWeights stabilizer).sum ≤ (stabilizer.length : ℚ) := by
  induction stabilizer with
  | nil => simp [rawWeights]
  | cons s t ih =>
    have h := rawWeight_le_one s (hs s (List.mem_cons_self s t))
    have ih1 := ih (fun x hx => hs x (List.mem_cons_of_mem s hx))
    simp only [rawWeights, List.map_cons, List.sum_cons, List.length_cons] at ih1 ⊢
    push_cast
    linarith

theorem length_pos_rat (stabilizer : List ℚ) (hne : stabilizer ≠ []) :
    (0 : ℚ) < (stabilizer.length : ℚ) := by
  have : 0 < stabilizer.length := List.length_pos.2 hne
  exact_mod_cast this

theorem meanWeight_ge (stabilizer : List ℚ) (hne : stabilizer ≠ []) :
    1 / 100 ≤ meanWeight stabilizer := by
  have hn := length_pos_rat stabilizer hne
  unfold meanWeight
  rw [rawWeights_length, le_div_iff₀ hn]
  have := rawWeights_sum_ge stabilizer
  linarith

theorem meanWeight_pos (stabilizer : List ℚ) (hne : stabilizer ≠ []) :
    0 < meanWeight stabilizer := by
  have := meanWeight_ge stabilizer hne
  linarith

theorem meanWeight_le_one (stabilizer : List ℚ) (hne : stabilizer ≠ [])
    (hs : ∀ s ∈ stabilizer, 0 ≤ s) : meanWeight stabilizer ≤ 1 := by
  have hn := length_pos_rat stabilizer hne
  unfold meanWeight
  rw [rawWeights_length, div_le_one hn]
  exact rawWeights_sum_le stabilizer hs

theorem sum_map_div (l : List ℚ) (c : ℚ) : (l.map (fun w => w / c)).sum = l.sum / c := by
  induction l with
  | nil => simp
  | cons a t ih => simp only [List.map_cons, List.sum_cons, ih]; ring

theorem fitWeights_eq (stabilizer y_encoded : List ℚ) (hne : stabilizer ≠ [])
    (hlen : stabilizer.length = y_encoded.length) :
    fitWeights stabilizer y_encoded = some (sampleWeights stabilizer) := by
  have h1 : stabilizer.isEmpty = false := by
    cases stabilizer with
    | nil => exact absurd rfl hne
    | cons a t => rfl
  simp [fitWeights, h1, hlen]

/-- The weight vector computed from a non-empty stabilizer: it is the guard's result, has one
entry per stabilizer value, is `max(0.01, 1 - 0.9 s) / mean` entry by entry with `mean` the
mean of the values `max(0.01, 1 - 0.9 s)`, that mean is not zero, and the mean of the vector
is 1. -/
theorem sampleWeights_facts (stabilizer : List ℚ) (hne : stabilizer ≠ []) :
    (sampleWeights stabilizer).length = stabilizer.length ∧
    sampleWeights stabilizer
      = stabilizer.map (fun s => max (1 / 100) (1 - 9 / 10 * s) /
          ((stabilizer.map (fun s => max (1 / 100) (1 - 9 / 10 * s))).sum
            / (stabilizer.length : ℚ))) ∧
    (stabilizer.map (fun s => max (1 / 100) (1 - 9 / 10 * s))).sum / (stabilizer.length : ℚ)
      ≠ 0 ∧
    (sampleWeights stabilizer).sum / ((sampleWeights stabilizer).length : ℚ) = 1 := by
  have hn := length_pos_rat stabilizer hne
  have hm := meanWeight_pos stabilizer hne
  have hraw : rawWeights stabilizer
      = stabilizer.map (fun s => max (1 / 100) (1 - 9 / 10 * s)) := by
    simp only [rawWeights]
    apply List.map_congr_left
    intro s _
    simp only [rawWeight]
    by_cases h : 1 - 9 / 10 * s < 1 / 100
    · simp only [h, if_true]; exact (max_eq_left (le_of_lt h)).symm
    · simp only [h, if_false]; exact (max_eq_right (not_lt.1 h)).symm
  have hmean : meanWeight stabilizer
      = (stabilizer.map (fun s => max (1 / 100) (1 - 9 / 10 * s))).sum
          / (stabilizer.length : ℚ) := by
    rw [meanWeight, rawWeights_length, hraw]
  refine ⟨?_, ?_, ?_, ?_⟩
  · simp [sampleWeights, rawWeights]
  · rw [← hmean, sampleWeights, hraw, List.map_map]
    rfl
  · rw [← hmean]; exact ne_of_gt hm
  · have hlen2 : (sampleWeights stabilizer).length = (rawWeights stabilizer).length := by
      simp [sampleWeights]
    rw [hlen2]
    simp only [sampleWeights, sum_map_div]
    have hsum : (rawWeights stabilizer).sum
        = meanWeight stabilizer * ((rawWeights stabilizer).length : ℚ) := by
      unfold meanWeight
      rw [rawWeights_length]
      field_simp
    have hl : ((rawWeights stabilizer).length : ℚ) ≠ 0 := by
      rw [rawWeights_length]; exact ne_of_gt hn
    rw [hsum]
    field_simp

/-- When no stabilizer value is negative the mean of the weights before rescaling is at most
1, and every weight of the vector is at least `0.01`. -/
theorem sampleWeights_ge (stabilizer : List ℚ) (hne : stabilizer ≠ [])
    (hs : ∀ s ∈ stabilizer, 0 ≤ s) : ∀ w ∈ sampleWeights stabilizer, 1 / 100 ≤ w := by
  have hm := meanWeight_pos stabilizer hne
  have hle := meanWeight_le_one stabilizer hne hs
  intro w hw
  simp only [sampleWeights, List.mem_map] at hw
  obtain ⟨r, hr, rfl⟩ := hw
  have h1 : 1 / 100 ≤ r := by
    simp only [rawWeights, List.mem_map] at hr
    obtain ⟨s, _, rfl⟩ := hr
    exact rawWeight_ge s
  rw [le_div_iff₀ hm]
  nlinarith

/-! ### The facade monad -/

theorem Facade.bind_apply {α β : Type} (x : Facade α) (f : α → Facade β) (m : Machine) :
    (x >>= f) m =
      match x m with
      | (Except.ok a, m1) => f a m1
      | (Except.error e, m1) => (Except.error e, m1) := rfl

theorem Facade.pure_apply {α : Type} (a : α) (m : Machine) :
    (pure a : Facade α) m = (Except.ok a, m) := rfl

theorem Facade.bind_ok {α β : Type} (x : Facade α) (f : α → Facade β) (m m1 : Machine) (a : α)
    (h : x m = (Except.ok a, m1)) : (x >>= f) m = f a m1 := by
  rw [Facade.bind_apply, h]

theorem Facade.bind_error {α β : Type} (x : Facade α) (f : α → Facade β) (m m1 : Machine)
    (e : Error) (h : x m = (Except.error e, m1)) : (x >>= f) m = (Except.error e, m1) := by
  rw [Facade.bind_apply, h]

/-! ### `CreateDMatrix` -/

theorem flattenRows_eq (n : Nat) (X : List (List ℚ)) (flat_X : List ℚ) :
    flattenRows n X flat_X =
      if ∀ row ∈ X, row.length = n then Except.ok (flat_X ++ X.flatten)
      else Except.error (Error.invalid_argument "Inconsistent feature size") := by
  induction X generalizing flat_X with
  | nil => simp [flattenRows]
  | cons row rest ih =>
    by_cases h : row.length = n
    · simp only [flattenRows, h, ne_eq, not_true_eq_false, if_false, ih, List.mem_cons,
        forall_eq_or_imp, true_and, List.flatten_cons, List.append_assoc]
    · simp [flattenRows, h]

/-- The condition under which `CreateDMatrix` throws `invalid_argument`: no rows, or a row
whose length differs from the first row's. -/
theorem CreateDMatrix_cons (env : Env) (row0 : List ℚ) (rest : List (List ℚ)) (m : Machine) :
    CreateDMatrix env (row0 :: rest) m =
      if ∀ row ∈ rest, row.length = row0.length then
        safe_xgboost_create env
          (Event.XGDMatrixCreateFromMat (row0 :: rest).flatten (rest.length + 1) row0.length)
          { m with self := { m.self with n_features_ := row0.length } }
      else
        (Except.error (Error.invalid_argument "Inconsistent feature size"),
          { m with self := { m.self with n_features_ := row0.length } }) := by
  simp only [CreateDMatrix, Facade.bind_apply, Facade.modify, flattenRows_eq, List.mem_cons,
    forall_eq_or_imp, true_and, List.nil_append, List.length_cons]
  by_cases h : ∀ row ∈ rest, row.length = row0.length
  · rw [if_pos h, if_pos h]
  · rw [if_neg h, if_neg h]; rfl

/-- C9. `CreateDMatrix` throws `invalid_argument` exactly when `X` has no rows or some row's
length differs from the first row's, and then the engine is untouched (no call logged or
counted); otherwise it makes exactly one engine call, `XGDMatrixCreateFromMat` on the
row-major concatenation of the rows with dimensions (number of rows) x (length of the first
row), and the result is that call's: a fresh handle on status 0, `runtime_error` if not. -/
theorem CreateDMatrix_rejects_iff (env : Env) (X : List (List ℚ)) (m : Machine) :
    ((∃ what, (CreateDMatrix env X m).1 = Except.error (Error.invalid_argument what)) ↔
      (X = [] ∨ ∃ row ∈ X, row.length ≠ (X.headD []).length)) ∧
    ((X = [] ∨ ∃ row ∈ X, row.length ≠ (X.headD []).length) →
      (CreateDMatrix env X m).2.engine = m.engine) ∧
    (¬ (X = [] ∨ ∃ row ∈ X, row.length ≠ (X.headD []).length) →
      (CreateDMatrix env X m).2.engine.log
          = m.engine.log ++ [Event.XGDMatrixCreateFromMat X.flatten X.length (X.headD []).length] ∧
      (CreateDMatrix env X m).2.engine.calls = m.engine.calls + 1 ∧
      (CreateDMatrix env X m).1
          = if env.status m.engine.calls = 0 then Except.ok m.engine.fresh
            else Except.error Error.runtime_error) := by
  cases X with
  | nil =>
    simp [CreateDMatrix, Facade.throw]
  | cons row0 rest =>
    rw [CreateDMatrix_cons]
    have hiff : (row0 :: rest = [] ∨ ∃ row ∈ row0 :: rest,
        row.length ≠ ((row0 :: rest).headD []).length)
        ↔ ¬ ∀ row ∈ rest, row.length = row0.length := by
      simp
    rw [hiff]
    by_cases h : ∀ row ∈ rest, row.length = row0.length
    · rw [if_pos h]
      refine ⟨?_, fun hn => absurd h hn, fun _ => ?_⟩
      · constructor
        · rintro ⟨what, hw⟩
          by_cases hs : env.status m.engine.calls = 0
          · simp [safe_xgboost_create, hs] at hw
          · simp [safe_xgboost_create, hs] at hw
        · intro hn; exact absurd h hn
      · by_cases hs : env.status m.engine.calls = 0
        · simp [safe_xgboost_create, hs]
        · simp [safe_xgboost_create, hs]
    · rw [if_neg h]
      exact ⟨⟨fun _ => h, fun _ => ⟨_, rfl⟩⟩, fun _ => rfl, fun hn => absurd h hn⟩

/-! ### The training loop -/

theorem safe_xgboost_ok (env : Env) (hok : ∀ n, env.status n = 0) (call : Event) (m : Machine) :
    safe_xgboost env call m =
      (Except.ok (), { m with engine :=
        { m.engine with log := m.engine.log ++ [call], calls := m.engine.calls + 1 } }) := by
  simp [safe_xgboost, hok]

theorem safe_xgboost_create_ok (env : Env) (hok : ∀ n, env.status n = 0) (call : Event)
    (m : Machine) :
    safe_xgboost_create env call m =
      (Except.ok m.engine.fresh, { m with engine :=
        { log := m.engine.log ++ [call], calls := m.engine.calls + 1
          live := m.engine.live ++ [m.engine.fresh], fresh := m.engine.fresh + 1 } }) := by
  simp [safe_xgboost_create, hok]

theorem trainLoop_trace (env : Env) (hok : ∀ n, env.status n = 0) (n_iter : Int)
    (start width : ℚ) :
    ∀ (remaining i k : Nat) (m : Machine), k ≤ remaining →
      (∀ j, j < k → env.terminated (i + j) = false) →
      (k < remaining → env.terminated (i + k) = true) →
      trainLoop env n_iter start width remaining i m =
        (Except.ok (), { m with engine := { m.engine with
          log := m.engine.log ++
            ((List.range' i k).flatMap (fun i =>
              [Event.XGBoosterUpdateOneIter m.self.booster_ (i : Int) m.self.dtrain_,
               Event.progress (start + width * ((i : ℚ) + 1) / (n_iter : ℚ))]) ++
             (if k < remaining then [Event.qWarning "Training was terminated by user."]
              else []))
          calls := m.engine.calls + k } }) := by
  intro remaining
  induction remaining with
  | zero =>
    intro i k m hk _ _
    have hk0 : k = 0 := by omega
    subst hk0
    simp [trainLoop, Facade.pure_apply]
  | succ r ih =>
    intro i k m hk hrun hstop
    cases k with
    | zero =>
      have ht : env.terminated i = true := by simpa using hstop (by omega)
      simp [trainLoop, ht, Facade.emit]
    | succ k1 =>
      have ht : env.terminated i = false := by simpa using hrun 0 (by omega)
      have hrun1 : ∀ j, j < k1 → env.terminated (i + 1 + j) = false := by
        intro j hj
        have := hrun (j + 1) (by omega)
        rwa [show i + (j + 1) = i + 1 + j by omega] at this
      have hstop1 : k1 < r → env.terminated (i + 1 + k1) = true := by
        intro h
        have := hstop (by omega)
        rwa [show i + (k1 + 1) = i + 1 + k1 by omega] at this
      simp only [trainLoop, ht, Bool.false_eq_true, if_false, Facade.bind_apply, Facade.self,
        safe_xgboost_ok env hok, Facade.emit]
      rw [ih (i + 1) k1 _ (by omega) hrun1 hstop1]
      simp only [List.range'_succ, List.flatMap_cons, List.append_assoc, List.cons_append,
        List.nil_append, Nat.add_lt_add_iff_right]
      rw [show m.engine.calls + 1 + k1 = m.engine.calls + (k1 + 1) by omega]

theorem CreateDMatrix_ok (env : Env) (hok : ∀ n, env.status n = 0) (row0 : List ℚ)
    (rest : List (List ℚ)) (hrest : ∀ row ∈ rest, row.length = row0.length) (m : Machine) :
    CreateDMatrix env (row0 :: rest) m =
      (Except.ok m.engine.fresh,
        { engine :=
            { log := m.engine.log ++
                [Event.XGDMatrixCreateFromMat (row0 :: rest).flatten (rest.length + 1)
                  row0.length]
              calls := m.engine.calls + 1
              live := m.engine.live ++ [m.engine.fresh], fresh := m.engine.fresh + 1 }
          self := { m.self with n_features_ := row0.length } }) := by
  rw [CreateDMatrix_cons, if_pos hrest, safe_xgboost_create_ok env hok]

theorem setParamsLoop_ok (env : Env) (hok : ∀ n, env.status n = 0) (b : Option Nat) :
    ∀ (ps : List (String × String)) (m : Machine),
      setParamsLoop env b ps m =
        (Except.ok (), { m with engine := { m.engine with
          log := m.engine.log ++ ps.map (fun p => Event.XGBoosterSetParam b p.1 p.2)
          calls := m.engine.calls + ps.length } }) := by
  intro ps
  induction ps with
  | nil => intro m; simp [setParamsLoop, Facade.pure_apply]
  | cons p rest ih =>
    intro m
    obtain ⟨k, v⟩ := p
    simp only [setParamsLoop, Facade.bind_apply, safe_xgboost_ok env hok, ih, List.map_cons,
      List.append_assoc, List.cons_append, List.nil_append, List.length_cons]
    rw [show m.engine.calls + 1 + rest.length = m.engine.calls + (rest.length + 1) by omega]

theorem mem_map_setParam_not_training (b : Option Nat) (ps : List (String × String))
    (ev : Event) (h : ev ∈ ps.map (fun p => Event.XGBoosterSetParam b p.1 p.2)) :
    ev.isTraining = false := by
  simp only [List.mem_map] at h
  obtain ⟨p, _, rfl⟩ := h
  rfl

/-- With every engine call succeeding and an accepted matrix, the first part of
`XGBRegressor::Fit` succeeds, leaves `params_` alone and logs no training event. -/
theorem regressor_setup_ok (env : Env) (hok : ∀ n, env.status n = 0) (X : List (List ℚ))
    (y : List ℚ) (m : Machine)
    (hX : X ≠ [] ∧ ∀ row ∈ X, row.length = (X.headD []).length) :
    ∃ m1 pre, XGBRegressor.setup env X y m = (Except.ok (), m1) ∧
      m1.self.params_ = m.self.params_ ∧
      m1.engine.log = m.engine.log ++ pre ∧ (∀ ev ∈ pre, ev.isTraining = false) := by
  obtain ⟨hne, hrect⟩ := hX
  cases X with
  | nil => exact absurd rfl hne
  | cons row0 rest =>
    have hrest : ∀ row ∈ rest, row.length = row0.length := fun row hr =>
      hrect row (List.mem_cons_of_mem _ hr)
    simp only [XGBRegressor.setup, Facade.bind_apply,
      CreateDMatrix_ok env hok row0 rest hrest, safe_xgboost_create_ok env hok, safe_xgboost_ok env hok, Facade.modify,
      SetBoosterParams, Facade.self, setParamsLoop_ok env hok, List.append_assoc]
    refine ⟨_, _, rfl, rfl, rfl, ?_⟩
    intro ev hev
    simp only [List.cons_append, List.nil_append, List.mem_cons, List.mem_append] at hev
    rcases hev with rfl | rfl | rfl | hev
    · rfl
    · rfl
    · rfl
    · exact mem_map_setParam_not_training _ _ ev hev

theorem lookup_insert_of_ne (ps : List (String × String)) (key value k : String)
    (h : k ≠ key) : (QMap.insert ps key value).lookup k = ps.lookup k := by
  have hb : (k == key) = false := by simpa using h
  induction ps with
  | nil => simp [QMap.insert, List.lookup, hb]
  | cons p rest ih =>
    obtain ⟨k1, v1⟩ := p
    by_cases h1 : key < k1
    · simp [QMap.insert, h1, List.lookup, hb]
    · by_cases h2 : key = k1
      · subst h2
        simp [QMap.insert, h1, List.lookup, hb]
      · simp only [QMap.insert, h1, h2, if_false, List.lookup, ih]

/-- With every engine call succeeding and an accepted matrix, the first part of
`XGBClassifier::Fit` succeeds, leaves the iteration count alone and logs no training event. -/
theorem classifier_setup_ok (env : Env) (hok : ∀ n, env.status n = 0) (X : List (List ℚ))
    (y stabilizer : List ℚ) (m : Machine)
    (hX : X ≠ [] ∧ ∀ row ∈ X, row.length = (X.headD []).length) :
    ∃ m1 pre, XGBClassifier.setup env X y stabilizer m = (Except.ok (), m1) ∧
      nIter env m1.self.params_ = nIter env m.self.params_ ∧
      m1.engine.log = m.engine.log ++ pre ∧ (∀ ev ∈ pre, ev.isTraining = false) := by
  obtain ⟨hne, hrect⟩ := hX
  cases X with
  | nil => exact absurd rfl hne
  | cons row0 rest =>
    have hrest : ∀ row ∈ rest, row.length = row0.length := fun row hr =>
      hrect row (List.mem_cons_of_mem _ hr)
    have hn : ∀ (ps : List (String × String)) (v : String),
        nIter env (QMap.insert ps "num_class" v) = nIter env ps := by
      intro ps v
      simp only [nIter, lookup_insert_of_ne ps "num_class" v "num_boost_round" (by decide)]
    cases hw : fitWeights stabilizer (EncodeLabels (y.map Label.num)).encoded with
    | none =>
      simp only [XGBClassifier.setup, Facade.bind_apply,
        CreateDMatrix_ok env hok row0 rest hrest, safe_xgboost_create_ok env hok, safe_xgboost_ok env hok, Facade.modify,
        SetBoosterParams, Facade.self, setParamsLoop_ok env hok, List.append_assoc, hw,
        Facade.pure_apply]
      refine ⟨_, _, rfl, hn _ _, rfl, ?_⟩
      intro ev hev
      simp only [List.cons_append, List.nil_append, List.mem_cons, List.mem_append] at hev
      rcases hev with rfl | rfl | rfl | hev
      · rfl
      · rfl
      · rfl
      · exact mem_map_setParam_not_training _ _ ev hev
    | some ws =>
      simp only [XGBClassifier.setup, Facade.bind_apply,
        CreateDMatrix_ok env hok row0 rest hrest, safe_xgboost_create_ok env hok, safe_xgboost_ok env hok, Facade.modify,
        SetBoosterParams, Facade.self, setParamsLoop_ok env hok, List.append_assoc, hw,
        Facade.pure_apply]
      refine ⟨_, _, rfl, hn _ _, rfl, ?_⟩
      intro ev hev
      simp only [List.cons_append, List.nil_append, List.mem_cons, List.mem_append] at hev
      rcases hev with rfl | rfl | rfl | rfl | hev
      · rfl
      · rfl
      · rfl
      · rfl
      · exact mem_map_setParam_not_training _ _ ev hev

/-- The last part of `Fit`, run after a first part that ended in the state `m1`. -/
theorem fitIterations_trace (env : Env) (hok : ∀ n, env.status n = 0) (start stop : ℚ)
    (m1 : Machine) (k : Nat) (hk : (k : Int) ≤ nIter env m1.self.params_)
    (hrun : ∀ i, i < k → env.terminated i = false)
    (hstop : (k : Int) = nIter env m1.self.params_ ∨ env.terminated k = true) :
    ∃ final, fitIterations env start stop m1 = (Except.ok (), final) ∧
      final.self = m1.self ∧
      final.engine.log = m1.engine.log ++
        (loopEvents m1.self.booster_ m1.self.dtrain_ (nIter env m1.self.params_) start
            (stop - start) k ++ cancelEvents (nIter env m1.self.params_) k) := by
  have h1 : k ≤ (nIter env m1.self.params_).toNat := by omega
  have h2 : ∀ j, j < k → env.terminated (0 + j) = false := by
    intro j hj; rw [Nat.zero_add]; exact hrun j hj
  have h3 : k < (nIter env m1.self.params_).toNat → env.terminated (0 + k) = true := by
    intro hlt
    rw [Nat.zero_add]
    rcases hstop with h | h
    · omega
    · exact h
  have h4 : (k < (nIter env m1.self.params_).toNat) ↔ ((k : Int) < nIter env m1.self.params_) := by
    omega
  simp only [fitIterations, Facade.bind_apply, Facade.self]
  rw [trainLoop_trace env hok _ _ _ _ 0 k m1 h1 h2 h3]
  refine ⟨_, rfl, rfl, ?_⟩
  simp only [loopEvents, cancelEvents, List.range_eq_range', h4]

/-- C10, counterexample. Every engine call succeeds, the cancellation flag is never set and
`n_iter = 3`, but the feature matrix is empty: `Fit`, for the regressor and for the
classifier, throws `invalid_argument` from `CreateDMatrix` before any engine call, so no
update step is performed and no progress value is reported. -/
theorem Fit_empty_matrix_counterexample :
    (∀ n, exampleEnv.status n = 0) ∧ (∀ i, exampleEnv.terminated i = false) ∧
    nIter exampleEnv exampleMachine.self.params_ = 3 ∧
    XGBRegressor.Fit exampleEnv [] [] 0 1 exampleMachine
      = (Except.error (Error.invalid_argument "Empty feature matrix"), exampleMachine) ∧
    (XGBClassifier.Fit exampleEnv [] [] [] 0 1 exampleMachine).1
      = Except.error (Error.invalid_argument "Empty feature matrix") ∧
    (XGBClassifier.Fit exampleEnv [] [] [] 0 1 exampleMachine).2.engine
      = exampleMachine.engine :=
  ⟨fun _ => rfl, fun _ => rfl, by decide!, rfl, rfl, rfl⟩

/-- C10, amended. Training loop trace. Let every engine call succeed, let `CreateDMatrix`
accept the feature matrix (it has a row and all its rows are as long as the first), and let
the cancellation flag be seen clear before the steps `0, ..., k-1` and either set before step
`k` or `k = n_iter`. Then `Fit`, for the regressor and for the
classifier, returns without an error, and after events none of which is an update step or a
progress report it logs exactly the update steps `0, ..., k-1` in order, each followed by its
progress value `start + (stop - start) * (i + 1) / n_iter` (so `k` progress values), then
only the cancellation warning when `k < n_iter`; after a full run the last progress value is
`stop`. -/
theorem Fit_training_trace (env : Env) (X : List (List ℚ)) (y stabilizer : List ℚ)
    (start stop : ℚ) (m : Machine) (k : Nat)
    (hok : ∀ n, env.status n = 0)
    (hX : X ≠ [] ∧ ∀ row ∈ X, row.length = (X.headD []).length)
    (hk : (k : Int) ≤ nIter env m.self.params_)
    (hrun : ∀ i, i < k → env.terminated i = false)
    (hstop : (k : Int) = nIter env m.self.params_ ∨ env.terminated k = true) :
    (∃ pre final, XGBRegressor.Fit env X y start stop m = (Except.ok (), final) ∧
      (∀ ev ∈ pre, ev.isTraining = false) ∧
      final.engine.log = m.engine.log ++ pre ++
        loopEvents final.self.booster_ final.self.dtrain_ (nIter env m.self.params_) start
          (stop - start) k ++ cancelEvents (nIter env m.self.params_) k) ∧
    (∃ pre final, XGBClassifier.Fit env X y stabilizer start stop m = (Except.ok (), final) ∧
      (∀ ev ∈ pre, ev.isTraining = false) ∧
      final.engine.log = m.engine.log ++ pre ++
        loopEvents final.self.booster_ final.self.dtrain_ (nIter env m.self.params_) start
          (stop - start) k ++ cancelEvents (nIter env m.self.params_) k) ∧
    ((k : Int) = nIter env m.self.params_ → 0 < k →
      start + (stop - start) * (((k - 1 : ℕ) : ℚ) + 1) / ((nIter env m.self.params_ : Int) : ℚ)
        = stop) := by
  refine ⟨?_, ?_, ?_⟩
  · obtain ⟨m1, pre, hset, hpar, hlog, hpre⟩ := regressor_setup_ok env hok X y m hX
    obtain ⟨final, hfit, hself, hfin⟩ :=
      fitIterations_trace env hok start stop m1 k (by rw [hpar]; exact hk) hrun
        (by rw [hpar]; exact hstop)
    refine ⟨pre, final, ?_, hpre, ?_⟩
    · rw [XGBRegressor.Fit, Facade.bind_ok _ _ m m1 () hset]
      exact hfit
    · rw [hfin, hlog, hself, hpar]
      simp only [List.append_assoc]
  · obtain ⟨m1, pre, hset, hpar, hlog, hpre⟩ :=
      classifier_setup_ok env hok X y stabilizer m hX
    obtain ⟨final, hfit, hself, hfin⟩ :=
      fitIterations_trace env hok start stop m1 k (by rw [hpar]; exact hk) hrun
        (by rw [hpar]; exact hstop)
    refine ⟨pre, final, ?_, hpre, ?_⟩
    · rw [XGBClassifier.Fit, Facade.bind_ok _ _ m m1 () hset]
      exact hfit
    · rw [hfin, hlog, hself, hpar]
      simp only [List.append_assoc]
  · intro hkn hpos
    rw [← hkn]
    have hk1 : (((k - 1 : ℕ) : ℚ) + 1) = (k : ℚ) := by
      have : k - 1 + 1 = k := by omega
      exact_mod_cast this
    have hk0 : (k : ℚ) ≠ 0 := by
      have : k ≠ 0 := by omega
      exact_mod_cast this
    rw [hk1]
    push_cast
    field_simp

/-! ### The train/test split -/

theorem truncToInt_of_nonneg (x : ℚ) (h : 0 ≤ x) : truncToInt x = ⌊x⌋ := by
  rw [truncToInt, if_pos h]

theorem trainCountOf_eq_floor (N : Nat) : trainCountOf N = ⌊(66 / 100 : ℚ) * (N : ℚ)⌋ := by
  have h : (0 : ℚ) ≤ (N : ℚ) * (66 / 100) := by positivity
  rw [trainCountOf, truncToInt_of_nonneg _ h, mul_comm]

theorem trainCountOf_eq_div (N : Nat) : trainCountOf N = ((66 * N / 100 : ℕ) : Int) := by
  rw [trainCountOf_eq_floor]
  have h : (66 / 100 : ℚ) * (N : ℚ) = ((66 * N : ℕ) : ℚ) / ((100 : ℕ) : ℚ) := by
    push_cast; ring
  rw [h, Rat.floor_natCast_div_natCast]
  norm_cast

theorem cell_eq (dataRows_ : List (List ℚ)) (row col : Nat) (r : List ℚ)
    (hr : dataRows_[row]? = some r) (hc : col < r.length) :
    r[col]? = some (cell dataRows_ row col) := by
  simp [cell, List.getD_eq_getElem?_getD, hr, List.getElem?_eq_getElem hc]

theorem featRowOf_eq (dataRows_ : List (List ℚ)) (row : Nat) (r : List ℚ)
    (hr : dataRows_[row]? = some r) (featureIndices : List Nat)
    (hf : ∀ f ∈ featureIndices, f < r.length) :
    featRowOf r featureIndices = some (featureIndices.map (cell dataRows_ row)) := by
  induction featureIndices with
  | nil => rfl
  | cons f rest ih =>
    have h1 := cell_eq dataRows_ row f r hr (hf f (List.mem_cons_self f rest))
    have h2 := ih (fun g hg => hf g (List.mem_cons_of_mem f hg))
    unfold featRowOf at h2 ⊢
    rw [List.mapM_cons, h1, h2]
    rfl

/-- One iteration of the split loop, when every read lies inside its vector. -/
theorem splitStep_eq (dataRows_ : List (List ℚ)) (featureIndices : List Nat) (targetIdx : Nat)
    (stabilizerIdx : Int) (trainCount : Int) (indices : List Nat) (acc : Split) (i row : Nat)
    (r : List ℚ) (hrow : indices[i]? = some row) (hr : dataRows_[row]? = some r)
    (hf : ∀ f ∈ featureIndices, f < r.length) (ht : targetIdx < r.length)
    (hs : 0 ≤ stabilizerIdx → stabilizerIdx.toNat < r.length) :
    splitStep dataRows_ featureIndices targetIdx stabilizerIdx trainCount indices acc i =
      some (if (i : Int) < trainCount then
        { acc with
          features_ := acc.features_ ++ [featureIndices.map (cell dataRows_ row)]
          targets_ := acc.targets_ ++ [cell dataRows_ row targetIdx]
          stabilizer_ :=
            if 0 ≤ stabilizerIdx then acc.stabilizer_ ++ [cell dataRows_ row stabilizerIdx.toNat]
            else acc.stabilizer_ }
      else
        { acc with
          features_test_ := acc.features_test_ ++ [featureIndices.map (cell dataRows_ row)]
          targets_test_ := acc.targets_test_ ++ [cell dataRows_ row targetIdx]
          stabilizer_test_ :=
            if 0 ≤ stabilizerIdx then
              acc.stabilizer_test_ ++ [cell dataRows_ row stabilizerIdx.toNat]
            else acc.stabilizer_test_ }) := by
  have h1 := featRowOf_eq dataRows_ row r hr featureIndices hf
  have h2 := cell_eq dataRows_ row targetIdx r hr ht
  by_cases hst : 0 ≤ stabilizerIdx
  · have h3 := cell_eq dataRows_ row stabilizerIdx.toNat r hr (hs hst)
    by_cases hlt : (i : Int) < trainCount
    · simp [splitStep, hrow, hr, h1, h2, h3, hst, hlt]
    · simp [splitStep, hrow, hr, h1, h2, h3, hst, hlt]
  · by_cases hlt : (i : Int) < trainCount
    · simp [splitStep, hrow, hr, h1, h2, hst, hlt]
    · simp [splitStep, hrow, hr, h1, h2, hst, hlt]

theorem splitAfter_zero (dataRows_ : List (List ℚ)) (featureIndices : List Nat)
    (targetIdx : Nat) (stabilizerIdx : Int) (tc : Nat) (indices : List Nat) :
    splitAfter dataRows_ featureIndices targetIdx stabilizerIdx tc indices 0 = Split.empty := by
  simp [splitAfter, Split.empty]

theorem splitAfter_succ_train (dataRows_ : List (List ℚ)) (featureIndices : List Nat)
    (targetIdx : Nat) (stabilizerIdx : Int) (tc : Nat) (indices : List Nat) (n row : Nat)
    (hrow : indices[n]? = some row) (hlt : n < tc) :
    splitAfter dataRows_ featureIndices targetIdx stabilizerIdx tc indices (n + 1) =
      { splitAfter dataRows_ featureIndices targetIdx stabilizerIdx tc indices n with
        features_ :=
          (splitAfter dataRows_ featureIndices targetIdx stabilizerIdx tc indices n).features_
            ++ [featureIndices.map (cell dataRows_ row)]
        targets_ :=
          (splitAfter dataRows_ featureIndices targetIdx stabilizerIdx tc indices n).targets_
            ++ [cell dataRows_ row targetIdx]
        stabilizer_ :=
          if 0 ≤ stabilizerIdx then
            (splitAfter dataRows_ featureIndices targetIdx stabilizerIdx tc indices n).stabilizer_
              ++ [cell dataRows_ row stabilizerIdx.toNat]
          else
            (splitAfter dataRows_ featureIndices targetIdx stabilizerIdx tc indices n).stabilizer_
      } := by
  have h1 : min (n + 1) tc = n + 1 := by omega
  have h2 : min n tc = n := by omega
  have h4 : (indices.take n).drop tc = [] :=
    List.drop_eq_nil_of_le (by rw [List.length_take]; omega)
  have h5 : indices.take (n + 1) = indices.take n ++ [row] := by
    rw [List.take_succ, hrow]; rfl
  have h3 : (indices.take n ++ [row]).drop tc = [] := by
    rw [← h5]
    exact List.drop_eq_nil_of_le (by rw [List.length_take]; omega)
  simp only [splitAfter, h1, h2, h3, h4, h5, List.map_append, List.map_cons, List.map_nil]
  by_cases hs : 0 ≤ stabilizerIdx
  · simp only [hs, if_true]
  · simp only [hs, if_false]

theorem splitAfter_succ_test (dataRows_ : List (List ℚ)) (featureIndices : List Nat)
    (targetIdx : Nat) (stabilizerIdx : Int) (tc : Nat) (indices : List Nat) (n row : Nat)
    (hrow : indices[n]? = some row) (hge : tc ≤ n) :
    splitAfter dataRows_ featureIndices targetIdx stabilizerIdx tc indices (n + 1) =
      { splitAfter dataRows_ featureIndices targetIdx stabilizerIdx tc indices n with
        features_test_ :=
          (splitAfter dataRows_ featureIndices targetIdx stabilizerIdx tc indices n).features_test_
            ++ [featureIndices.map (cell dataRows_ row)]
        targets_test_ :=
          (splitAfter dataRows_ featureIndices targetIdx stabilizerIdx tc indices n).targets_test_
            ++ [cell dataRows_ row targetIdx]
        stabilizer_test_ :=
          if 0 ≤ stabilizerIdx then
            (splitAfter dataRows_ featureIndices targetIdx stabilizerIdx tc indices
              n).stabilizer_test_ ++ [cell dataRows_ row stabilizerIdx.toNat]
          else
            (splitAfter dataRows_ featureIndices targetIdx stabilizerIdx tc indices
              n).stabilizer_test_ } := by
  have hlen : n < indices.length := by
    by_contra hc
    rw [List.getElem?_eq_none (by omega)] at hrow
    exact absurd hrow (by simp)
  have h1 : min (n + 1) tc = tc := by omega
  have h2 : min n tc = tc := by omega
  have h5 : indices.take (n + 1) = indices.take n ++ [row] := by
    rw [List.take_succ, hrow]; rfl
  have h6 : (indices.take n ++ [row]).drop tc = (indices.take n).drop tc ++ [row] :=
    List.drop_append_of_le_length (by rw [List.length_take]; omega)
  simp only [splitAfter, h1, h2, h5, h6, List.map_append, List.map_cons, List.map_nil]
  by_cases hs : 0 ≤ stabilizerIdx
  · simp only [hs, if_true]
  · simp only [hs, if_false]

/-- The split loop in closed form after `n` iterations, when every read lies inside its
vector. -/
theorem foldlM_splitStep (dataRows_ : List (List ℚ)) (featureIndices : List Nat)
    (targetIdx : Nat) (stabilizerIdx : Int) (tc : Nat) (indices : List Nat) (W : Nat)
    (hidx : ∀ i, i < dataRows_.length → ∃ row, indices[i]? = some row ∧ row < dataRows_.length)
    (hrows : ∀ r ∈ dataRows_, r.length = W)
    (hf : ∀ f ∈ featureIndices, f < W) (ht : targetIdx < W)
    (hs : 0 ≤ stabilizerIdx → stabilizerIdx.toNat < W) :
    ∀ n, n ≤ dataRows_.length →
      (List.range n).foldlM
          (splitStep dataRows_ featureIndices targetIdx stabilizerIdx (tc : Int) indices)
          Split.empty
        = some (splitAfter dataRows_ featureIndices targetIdx stabilizerIdx tc indices n) := by
  intro n
  induction n with
  | zero => intro _; rw [splitAfter_zero]; rfl
  | succ n ih =>
    intro hn
    obtain ⟨row, hrow, hlt⟩ := hidx n (by omega)
    have hr : dataRows_[row]? = some (dataRows_[row]) := List.getElem?_eq_getElem hlt
    have hW : (dataRows_[row]).length = W := hrows _ (List.getElem_mem hlt)
    rw [List.range_succ, List.foldlM_append, ih (by omega)]
    simp only [Option.some_bind, List.foldlM_cons, List.foldlM_nil, Option.bind_eq_bind]
    rw [splitStep_eq dataRows_ featureIndices targetIdx stabilizerIdx tc indices _ n row
      (dataRows_[row]) hrow hr (by rw [hW]; exact hf) (by rw [hW]; exact ht)
      (by rw [hW]; exact hs)]
    by_cases hc : n < tc
    · have hc1 : (n : Int) < (tc : Int) := by omega
      rw [if_pos hc1, splitAfter_succ_train _ _ _ _ _ _ _ _ hrow hc]
      rfl
    · have hc1 : ¬ (n : Int) < (tc : Int) := by omega
      rw [if_neg hc1, splitAfter_succ_test _ _ _ _ _ _ _ _ hrow (by omega)]
      rfl

/-- Once the split loop has produced `sp`, the slot ends (with a message or with an exception
of `Fit`) in a window whose six vectors are those of `sp` and whose data matrix is
unchanged. -/
theorem startTraining_of_split (env : Env) (w : MainWindow) (indices : List Nat) (sp : Split)
    (hfeat : featureIndicesOf w.featureTable_ ≠ [])
    (htarget : 0 ≤ w.targetBox_currentIndex) (hN : 2 ≤ w.dataRows_.length)
    (hsp : splitRows w.dataRows_ (featureIndicesOf w.featureTable_)
      w.targetBox_currentIndex.toNat (w.stabilizerBox_currentIndex - 1)
      (trainCountOf w.dataRows_.length) indices = some sp) :
    ∃ w1 out, startTraining env w indices = some (w1, out) ∧
      w1.features_ = sp.features_ ∧ w1.targets_ = sp.targets_ ∧
      w1.stabilizer_ = sp.stabilizer_ ∧ w1.features_test_ = sp.features_test_ ∧
      w1.targets_test_ = sp.targets_test_ ∧ w1.stabilizer_test_ = sp.stabilizer_test_ ∧
      w1.dataRows_ = w.dataRows_ := by
  have h1 : (featureIndicesOf w.featureTable_).isEmpty = false := by
    cases h : featureIndicesOf w.featureTable_ with
    | nil => exact absurd h hfeat
    | cons a t => rfl
  have h2 : ¬ w.targetBox_currentIndex < 0 := by omega
  have h3 : ¬ w.dataRows_.length < 2 := by omega
  simp only [startTraining, h1, Bool.false_eq_true, if_false, h2, h3, hsp]
  split
  · cases w.model_ <;> exact ⟨_, _, rfl, rfl, rfl, rfl, rfl, rfl, rfl, rfl⟩
  · cases w.model_ <;> exact ⟨_, _, rfl, rfl, rfl, rfl, rfl, rfl, rfl, rfl⟩

theorem mem_featureIndicesOf (featureTable_ : List Bool) (f : Nat)
    (h : f ∈ featureIndicesOf featureTable_) : f < featureTable_.length := by
  simp only [featureIndicesOf, List.mem_filter, List.mem_range] at h
  exact h.1

/-- The split of a window that holds a dataset, in closed form. -/
theorem startTraining_split_closed (env : Env) (w : MainWindow) (indices : List Nat)
    (hfeat : featureIndicesOf w.featureTable_ ≠ [])
    (htarget : 0 ≤ w.targetBox_currentIndex) (hN : 2 ≤ w.dataRows_.length)
    (hds : w.HoldsDataset) (hperm : indices.Perm (List.range w.dataRows_.length)) :
    ∃ w1 out, startTraining env w indices = some (w1, out) ∧
      w1.features_ = (indices.take (66 * w.dataRows_.length / 100)).map
        (fun row => (featureIndicesOf w.featureTable_).map (cell w.dataRows_ row)) ∧
      w1.targets_ = (indices.take (66 * w.dataRows_.length / 100)).map
        (fun row => cell w.dataRows_ row w.targetBox_currentIndex.toNat) ∧
      w1.stabilizer_ = (if 0 ≤ w.stabilizerBox_currentIndex - 1 then
        (indices.take (66 * w.dataRows_.length / 100)).map
          (fun row => cell w.dataRows_ row (w.stabilizerBox_currentIndex - 1).toNat)
        else []) ∧
      w1.features_test_ = (indices.drop (66 * w.dataRows_.length / 100)).map
        (fun row => (featureIndicesOf w.featureTable_).map (cell w.dataRows_ row)) ∧
      w1.targets_test_ = (indices.drop (66 * w.dataRows_.length / 100)).map
        (fun row => cell w.dataRows_ row w.targetBox_currentIndex.toNat) ∧
      w1.stabilizer_test_ = (if 0 ≤ w.stabilizerBox_currentIndex - 1 then
        (indices.drop (66 * w.dataRows_.length / 100)).map
          (fun row => cell w.dataRows_ row (w.stabilizerBox_currentIndex - 1).toNat)
        else []) ∧
      w1.dataRows_ = w.dataRows_ := by
  have hlen : indices.length = w.dataRows_.length := by
    rw [hperm.length_eq, List.length_range]
  have hidx : ∀ i, i < w.dataRows_.length →
      ∃ row, indices[i]? = some row ∧ row < w.dataRows_.length := by
    intro i hi
    have hi2 : i < indices.length := by omega
    refine ⟨indices[i], List.getElem?_eq_getElem hi2, ?_⟩
    have hm : indices[i] ∈ List.range w.dataRows_.length :=
      hperm.mem_iff.1 (List.getElem_mem hi2)
    exact List.mem_range.1 hm
  have hf : ∀ f ∈ featureIndicesOf w.featureTable_, f < w.columnNames_.length := by
    intro f hfm
    rw [← hds.table]
    exact mem_featureIndicesOf _ f hfm
  have ht : w.targetBox_currentIndex.toNat < w.columnNames_.length := by
    have := hds.target
    omega
  have hs : 0 ≤ w.stabilizerBox_currentIndex - 1 →
      (w.stabilizerBox_currentIndex - 1).toNat < w.columnNames_.length := by
    intro h0
    have := hds.stabilizer
    omega
  have hsp := foldlM_splitStep w.dataRows_ (featureIndicesOf w.featureTable_)
    w.targetBox_currentIndex.toNat (w.stabilizerBox_currentIndex - 1)
    (66 * w.dataRows_.length / 100) indices w.columnNames_.length hidx hds.rows hf ht hs
    w.dataRows_.length (le_refl _)
  rw [← trainCountOf_eq_div] at hsp
  obtain ⟨w1, out, hrun, e1, e2, e3, e4, e5, e6, e7⟩ :=
    startTraining_of_split env w indices _ hfeat htarget hN hsp
  have htc : 66 * w.dataRows_.length / 100 ≤ w.dataRows_.length := by omega
  have hmin : min w.dataRows_.length (66 * w.dataRows_.length / 100)
      = 66 * w.dataRows_.length / 100 := by omega
  have htake : indices.take w.dataRows_.length = indices := by
    rw [← hlen]; exact List.take_length indices
  refine ⟨w1, out, hrun, ?_, ?_, ?_, ?_, ?_, ?_, e7⟩
  · rw [e1]; simp only [splitAfter, hmin]
  · rw [e2]; simp only [splitAfter, hmin]
  · rw [e3]; simp only [splitAfter, hmin]
  · rw [e4]; simp only [splitAfter, htake]
  · rw [e5]; simp only [splitAfter, htake]
  · rw [e6]; simp only [splitAfter, htake]

theorem count_take_add_count_drop (indices : List Nat) (N tc row : Nat)
    (hperm : indices.Perm (List.range N)) (hrow : row < N) :
    (indices.take tc).count row + (indices.drop tc).count row = 1 := by
  rw [← List.count_append, List.take_append_drop, hperm.count_eq]
  exact List.count_eq_one_of_mem (List.nodup_range N) (List.mem_range.2 hrow)

/-- C6. Split sizes. With a feature checked and a target chosen: when the data matrix has
fewer than 2 rows, `startTraining` shows "Not enough data" and leaves the whole window (the
stored train/test vectors and the model included) as it was; when the window holds a dataset
of `N ≥ 2` rows and `indices` is a permutation of the row indices, the slot ends in a window
whose training vectors have exactly `floor(0.66 * N)` entries and whose test vectors have
`N - floor(0.66 * N)`, together `N`. -/
theorem startTraining_split_sizes (env : Env) (w : MainWindow) (indices : List Nat)
    (hfeat : featureIndicesOf w.featureTable_ ≠ [])
    (htarget : 0 ≤ w.targetBox_currentIndex) :
    (w.dataRows_.length < 2 →
      startTraining env w indices
        = some (w, Outcome.message (Message.warning "Not enough data"))) ∧
    (2 ≤ w.dataRows_.length → w.HoldsDataset →
      indices.Perm (List.range w.dataRows_.length) →
      ∃ w1 out, startTraining env w indices = some (w1, out) ∧
        (w1.features_.length : Int) = ⌊(66 / 100 : ℚ) * (w.dataRows_.length : ℚ)⌋ ∧
        w1.targets_.length = w1.features_.length ∧
        w1.features_test_.length = w.dataRows_.length - w1.features_.length ∧
        w1.targets_test_.length = w1.features_test_.length ∧
        w1.features_.length + w1.features_test_.length = w.dataRows_.length) := by
  constructor
  · intro hN
    have h1 : (featureIndicesOf w.featureTable_).isEmpty = false := by
      cases h : featureIndicesOf w.featureTable_ with
      | nil => exact absurd h hfeat
      | cons a t => rfl
    have h2 : ¬ w.targetBox_currentIndex < 0 := by omega
    simp only [startTraining, h1, Bool.false_eq_true, if_false, h2, hN, if_true]
  · intro hN hds hperm
    obtain ⟨w1, out, hrun, e1, e2, _, e4, e5, _, _⟩ :=
      startTraining_split_closed env w indices hfeat htarget hN hds hperm
    have hlen : indices.length = w.dataRows_.length := by
      rw [hperm.length_eq, List.length_range]
    have htc : 66 * w.dataRows_.length / 100 ≤ w.dataRows_.length := by omega
    have l1 : w1.features_.length = 66 * w.dataRows_.length / 100 := by
      rw [e1, List.length_map, List.length_take, hlen]; omega
    have l2 : w1.targets_.length = 66 * w.dataRows_.length / 100 := by
      rw [e2, List.length_map, List.length_take, hlen]; omega
    have l4 : w1.features_test_.length = w.dataRows_.length - 66 * w.dataRows_.length / 100 := by
      rw [e4, List.length_map, List.length_drop, hlen]
    have l5 : w1.targets_test_.length = w.dataRows_.length - 66 * w.dataRows_.length / 100 := by
      rw [e5, List.length_map, List.length_drop, hlen]
    refine ⟨w1, out, hrun, ?_, ?_, ?_, ?_, ?_⟩
    · rw [← trainCountOf_eq_floor, trainCountOf_eq_div, l1]
    · rw [l1, l2]
    · rw [l4, l1]
    · rw [l4, l5]
    · rw [l1, l4]; omega

theorem exampleWindow_holdsDataset : exampleWindow.HoldsDataset where
  rows := by decide!
  table := by decide!
  target := by decide!
  stabilizer := by decide!

/-- Witness of C6 at the window of the end-to-end example (`N = 3`) and the shuffle result
`[2, 0, 1]`: one training row and two test rows. -/
theorem startTraining_split_sizes_witness :
    featureIndicesOf exampleWindow.featureTable_ ≠ [] ∧
    0 ≤ exampleWindow.targetBox_currentIndex ∧
    2 ≤ exampleWindow.dataRows_.length ∧
    [2, 0, 1].Perm (List.range exampleWindow.dataRows_.length) ∧
    ∃ w1 out, startTraining exampleEnv exampleWindow [2, 0, 1] = some (w1, out) ∧
      (w1.features_.length : Int)
        = ⌊(66 / 100 : ℚ) * (exampleWindow.dataRows_.length : ℚ)⌋ ∧
      w1.targets_.length = w1.features_.length ∧
      w1.features_test_.length = exampleWindow.dataRows_.length - w1.features_.length ∧
      w1.targets_test_.length = w1.features_test_.length ∧
      w1.features_.length + w1.features_test_.length = exampleWindow.dataRows_.length :=
  ⟨by decide, by decide, by decide!, by decide!,
    (startTraining_split_sizes exampleEnv exampleWindow [2, 0, 1] (by decide) (by decide)).2
      (by decide!) exampleWindow_holdsDataset (by decide!)⟩

/-- C7. Split is a partition with aligned extraction. For a window holding a dataset of
`N ≥ 2` rows, with a feature checked and a target chosen, and `indices` a permutation of the
row indices, let `tc = floor(0.66 * N)`. Every row index occurs exactly once in `indices`,
in the first `tc` positions (the training group) or in the remaining ones (the test group),
never in both. The training vectors hold, position by position, for the source rows
`indices[0], ..., indices[tc-1]`: the selected feature values in the order of the feature
indices, that row's target value and, when a stabilizer column is selected, that row's
stabilizer value; the test vectors hold the same for the rows of the remaining positions.
The values are entries of the data matrix. -/
theorem startTraining_partition (env : Env) (w : MainWindow) (indices : List Nat)
    (hfeat : featureIndicesOf w.featureTable_ ≠ [])
    (htarget : 0 ≤ w.targetBox_currentIndex) (hN : 2 ≤ w.dataRows_.length)
    (hds : w.HoldsDataset) (hperm : indices.Perm (List.range w.dataRows_.length)) :
    (∀ row, row < w.dataRows_.length →
      (indices.take (66 * w.dataRows_.length / 100)).count row
        + (indices.drop (66 * w.dataRows_.length / 100)).count row = 1) ∧
    (∀ row ∈ indices, row < w.dataRows_.length) ∧
    ((66 * w.dataRows_.length / 100 : ℕ) : Int) = ⌊(66 / 100 : ℚ) * (w.dataRows_.length : ℚ)⌋ ∧
    (∀ row col, row < w.dataRows_.length → col < w.columnNames_.length →
      w.dataRows_[row]?.bind (fun r => r[col]?) = some (cell w.dataRows_ row col)) ∧
    ∃ w1 out, startTraining env w indices = some (w1, out) ∧
      w1.features_ = (indices.take (66 * w.dataRows_.length / 100)).map
        (fun row => (featureIndicesOf w.featureTable_).map (cell w.dataRows_ row)) ∧
      w1.targets_ = (indices.take (66 * w.dataRows_.length / 100)).map
        (fun row => cell w.dataRows_ row w.targetBox_currentIndex.toNat) ∧
      w1.stabilizer_ = (if 0 ≤ w.stabilizerBox_currentIndex - 1 then
        (indices.take (66 * w.dataRows_.length / 100)).map
          (fun row => cell w.dataRows_ row (w.stabilizerBox_currentIndex - 1).toNat)
        else []) ∧
      w1.features_test_ = (indices.drop (66 * w.dataRows_.length / 100)).map
        (fun row => (featureIndicesOf w.featureTable_).map (cell w.dataRows_ row)) ∧
      w1.targets_test_ = (indices.drop (66 * w.dataRows_.length / 100)).map
        (fun row => cell w.dataRows_ row w.targetBox_currentIndex.toNat) ∧
      w1.stabilizer_test_ = (if 0 ≤ w.stabilizerBox_currentIndex - 1 then
        (indices.drop (66 * w.dataRows_.length / 100)).map
          (fun row => cell w.dataRows_ row (w.stabilizerBox_currentIndex - 1).toNat)
        else []) := by
  refine ⟨fun row hrow => count_take_add_count_drop indices _ _ row hperm hrow, ?_, ?_, ?_, ?_⟩
  · intro row hrow
    exact List.mem_range.1 (hperm.mem_iff.1 hrow)
  · rw [← trainCountOf_eq_div, trainCountOf_eq_floor]
  · intro row col hrow hcol
    have hr : w.dataRows_[row]? = some (w.dataRows_[row]) := List.getElem?_eq_getElem hrow
    have hW : (w.dataRows_[row]).length = w.columnNames_.length :=
      hds.rows _ (List.getElem_mem hrow)
    rw [hr, Option.some_bind]
    exact cell_eq w.dataRows_ row col _ hr (by omega)
  · obtain ⟨w1, out, hrun, e1, e2, e3, e4, e5, e6, _⟩ :=
      startTraining_split_closed env w indices hfeat htarget hN hds hperm
    exact ⟨w1, out, hrun, e1, e2, e3, e4, e5, e6⟩

/-- Witness of C7 at the window of the end-to-end example and the shuffle result
`[2, 0, 1]`. -/
theorem startTraining_partition_witness :
    featureIndicesOf exampleWindow.featureTable_ ≠ [] ∧
    0 ≤ exampleWindow.targetBox_currentIndex ∧
    2 ≤ exampleWindow.dataRows_.length ∧
    [2, 0, 1].Perm (List.range exampleWindow.dataRows_.length) ∧
    ∃ w1 out, startTraining exampleEnv exampleWindow [2, 0, 1] = some (w1, out) ∧
      w1.features_ = ([2, 0, 1].take (66 * exampleWindow.dataRows_.length / 100)).map
        (fun row => (featureIndicesOf exampleWindow.featureTable_).map
          (cell exampleWindow.dataRows_ row)) ∧
      w1.targets_ = ([2, 0, 1].take (66 * exampleWindow.dataRows_.length / 100)).map
        (fun row => cell exampleWindow.dataRows_ row exampleWindow.targetBox_currentIndex.toNat) ∧
      w1.stabilizer_ = (if 0 ≤ exampleWindow.stabilizerBox_currentIndex - 1 then
        ([2, 0, 1].take (66 * exampleWindow.dataRows_.length / 100)).map
          (fun row => cell exampleWindow.dataRows_ row
            (exampleWindow.stabilizerBox_currentIndex - 1).toNat)
        else []) ∧
      w1.features_test_ = ([2, 0, 1].drop (66 * exampleWindow.dataRows_.length / 100)).map
        (fun row => (featureIndicesOf exampleWindow.featureTable_).map
          (cell exampleWindow.dataRows_ row)) ∧
      w1.targets_test_ = ([2, 0, 1].drop (66 * exampleWindow.dataRows_.length / 100)).map
        (fun row => cell exampleWindow.dataRows_ row exampleWindow.targetBox_currentIndex.toNat) ∧
      w1.stabilizer_test_ = (if 0 ≤ exampleWindow.stabilizerBox_currentIndex - 1 then
        ([2, 0, 1].drop (66 * exampleWindow.dataRows_.length / 100)).map
          (fun row => cell exampleWindow.dataRows_ row
            (exampleWindow.stabilizerBox_currentIndex - 1).toNat)
        else []) :=
  ⟨by decide, by decide, by decide!, by decide!,
    (startTraining_partition exampleEnv exampleWindow [2, 0, 1] (by decide) (by decide)
      (by decide!) exampleWindow_holdsDataset (by decide!)).2.2.2.2⟩

/-! ### CSV ingest -/

theorem readRows_lengths (tenv : TextEnv) (ncols : Nat) :
    ∀ (lines : List (List Char)) (acc dataRows : List (List ℚ)),
      (∀ r ∈ acc, r.length = ncols) → readRows tenv ncols lines acc = some dataRows →
      ∀ r ∈ dataRows, r.length = ncols := by
  intro lines
  induction lines with
  | nil =>
    intro acc dataRows hacc h
    simp only [readRows, Option.some.injEq] at h
    subst h
    exact hacc
  | cons line rest ih =>
    intro acc dataRows hacc h
    by_cases hb : line.all tenv.isSpace = true
    · simp only [readRows, hb, if_true] at h
      exact ih acc dataRows hacc h
    · by_cases hp : (splitComma line).length = ncols
      · simp only [readRows, hb, Bool.false_eq_true, if_false, hp, ne_eq, not_true_eq_false] at h
        refine ih _ dataRows ?_ h
        intro r hr
        rw [List.mem_append, List.mem_singleton] at hr
        rcases hr with hr | rfl
        · exact hacc r hr
        · simp [parseParts, hp]
      · simp [readRows, hb, hp] at h

/-- A load that ends with the "Loaded ..." information leaves a rectangular dataset: every
stored row is as long as the stored header. -/
theorem loadCSV_loaded_rectangular (tenv : TextEnv) (w : MainWindow) (file : FileInput)
    (text : String) (h : (loadCSV tenv w file).2 = some (Message.information text)) :
    ∀ r ∈ (loadCSV tenv w file).1.dataRows_,
      r.length = (loadCSV tenv w file).1.columnNames_.length := by
  cases file with
  | cancelled => simp [loadCSV] at h
  | cannotOpen => simp [loadCSV] at h
  | content lines =>
    cases lines with
    | nil => simp [loadCSV] at h
    | cons headerLine rest =>
      cases hr : readRows tenv (splitComma headerLine).length rest [] with
      | none => simp [loadCSV, hr] at h
      | some dataRows =>
        simp only [loadCSV, hr]
        exact readRows_lengths tenv _ rest [] dataRows (by simp) hr

/-- C8. Two loads into a new window: the file `a,b,c / 1,2,3` loads and leaves a rectangular
dataset; the file `x,y / 1,2,3` then fails with "Inconsistent number of columns", but the
slot has already replaced the header, so the window keeps the new header `x,y` (2 names)
over the old row `[1, 2, 3]` (3 values): a stored row whose length differs from the number
of stored column names. -/
theorem loadCSV_failed_load_breaks_rectangularity :
    (∀ r ∈ (loadAll exampleText MainWindow.init
        [FileInput.content ["a,b,c".toList, "1,2,3".toList]]).dataRows_,
      r.length = (loadAll exampleText MainWindow.init
        [FileInput.content ["a,b,c".toList, "1,2,3".toList]]).columnNames_.length) ∧
    (loadCSV exampleText
        (loadAll exampleText MainWindow.init
          [FileInput.content ["a,b,c".toList, "1,2,3".toList]])
        (FileInput.content ["x,y".toList, "1,2,3".toList])).2
      = some (Message.warning "Inconsistent number of columns") ∧
    (loadAll exampleText MainWindow.init
        [FileInput.content ["a,b,c".toList, "1,2,3".toList],
         FileInput.content ["x,y".toList, "1,2,3".toList]]).columnNames_
      = ["x".toList, "y".toList] ∧
    (loadAll exampleText MainWindow.init
        [FileInput.content ["a,b,c".toList, "1,2,3".toList],
         FileInput.content ["x,y".toList, "1,2,3".toList]]).dataRows_ = [[1, 2, 3]] ∧
    (loadAll exampleText MainWindow.init
        [FileInput.content ["a,b,c".toList, "1,2,3".toList],
         FileInput.content ["x,y".toList, "1,2,3".toList]]).trainButton_enabled = true ∧
    ¬ (∀ r ∈ (loadAll exampleText MainWindow.init
        [FileInput.content ["a,b,c".toList, "1,2,3".toList],
         FileInput.content ["x,y".toList, "1,2,3".toList]]).dataRows_,
      r.length = (loadAll exampleText MainWindow.init
        [FileInput.content ["a,b,c".toList, "1,2,3".toList],
         FileInput.content ["x,y".toList, "1,2,3".toList]]).columnNames_.length) := by
  refine ⟨by decide!, by decide!, by decide!, by decide!, by decide!, by decide!⟩

/-- Witness of the amended C10: the regressor and the classifier of the example, three
boosting rounds,
never cancelled (`k = 3 = n_iter`), on a 2 x 2 feature matrix. -/
theorem Fit_training_trace_witness :
    (∀ n, exampleEnv.status n = 0) ∧
    (([[1, 2], [3, 4]] : List (List ℚ)) ≠ [] ∧
      ∀ row ∈ ([[1, 2], [3, 4]] : List (List ℚ)),
        row.length = (([[1, 2], [3, 4]] : List (List ℚ)).headD []).length) ∧
    ((3 : ℕ) : Int) ≤ nIter exampleEnv exampleMachine.self.params_ ∧
    (∀ i, i < 3 → exampleEnv.terminated i = false) ∧
    (∃ pre final, XGBRegressor.Fit exampleEnv [[1, 2], [3, 4]] [5, 6] 0 1 exampleMachine
        = (Except.ok (), final) ∧
      (∀ ev ∈ pre, ev.isTraining = false) ∧
      final.engine.log = exampleMachine.engine.log ++ pre ++
        loopEvents final.self.booster_ final.self.dtrain_
          (nIter exampleEnv exampleMachine.self.params_) 0 (1 - 0) 3 ++
        cancelEvents (nIter exampleEnv exampleMachine.self.params_) 3) ∧
    (∃ pre final, XGBClassifier.Fit exampleEnv [[1, 2], [3, 4]] [5, 6] [1 / 2, 1] 0 1
        exampleMachine = (Except.ok (), final) ∧
      (∀ ev ∈ pre, ev.isTraining = false) ∧
      final.engine.log = exampleMachine.engine.log ++ pre ++
        loopEvents final.self.booster_ final.self.dtrain_
          (nIter exampleEnv exampleMachine.self.params_) 0 (1 - 0) 3 ++
        cancelEvents (nIter exampleEnv exampleMachine.self.params_) 3) :=
  have h := Fit_training_trace exampleEnv [[1, 2], [3, 4]] [5, 6] [1 / 2, 1] 0 1
    exampleMachine 3 (fun _ => rfl) (by decide) (by decide!) (fun _ _ => rfl)
    (Or.inl (by decide!))
  ⟨fun _ => rfl, by decide, by decide!, fun _ _ => rfl, h.1, h.2.1⟩

/-! ### Handles held by a facade -/

/-- The training loop leaves the object and the set of live handles alone, whatever the
engine and the cancellation flag do. -/
theorem trainLoop_keeps (env : Env) (n_iter : Int) (start width : ℚ) :
    ∀ (remaining i : Nat) (m : Machine),
      (trainLoop env n_iter start width remaining i m).2.self = m.self ∧
      (trainLoop env n_iter start width remaining i m).2.engine.live = m.engine.live ∧
      (trainLoop env n_iter start width remaining i m).2.engine.fresh = m.engine.fresh := by
  intro remaining
  induction remaining with
  | zero => intro i m; exact ⟨rfl, rfl, rfl⟩
  | succ r ih =>
    intro i m
    by_cases ht : env.terminated i = true
    · simp [trainLoop, ht, Facade.emit]
    · by_cases hs : env.status m.engine.calls = 0
      · simp only [trainLoop, ht, Bool.false_eq_true, if_false, Facade.bind_apply, Facade.self,
          safe_xgboost, hs, if_true, Facade.emit]
        exact ih (i + 1) _
      · simp [trainLoop, ht, Facade.bind_apply, Facade.self, safe_xgboost, hs]

theorem fitIterations_keeps (env : Env) (start stop : ℚ) (m : Machine) :
    (fitIterations env start stop m).2.self = m.self ∧
    (fitIterations env start stop m).2.engine.live = m.engine.live ∧
    (fitIterations env start stop m).2.engine.fresh = m.engine.fresh := by
  simp only [fitIterations, Facade.bind_apply, Facade.self]
  exact trainLoop_keeps env _ _ _ _ 0 m

/-- With every engine call succeeding and an accepted matrix, the first part of
`XGBRegressor::Fit` creates two handles and stores them over whatever `dtrain_` and
`booster_` held; nothing is freed. -/
theorem regressor_setup_handles (env : Env) (hok : ∀ n, env.status n = 0) (X : List (List ℚ))
    (y : List ℚ) (m : Machine)
    (hX : X ≠ [] ∧ ∀ row ∈ X, row.length = (X.headD []).length) :
    ∃ m1, XGBRegressor.setup env X y m = (Except.ok (), m1) ∧
      m1.engine.live = m.engine.live ++ [m.engine.fresh, m.engine.fresh + 1] ∧
      m1.self.dtrain_ = some m.engine.fresh ∧
      m1.self.booster_ = some (m.engine.fresh + 1) := by
  obtain ⟨hne, hrect⟩ := hX
  cases X with
  | nil => exact absurd rfl hne
  | cons row0 rest =>
    have hrest : ∀ row ∈ rest, row.length = row0.length := fun row hr =>
      hrect row (List.mem_cons_of_mem _ hr)
    simp only [XGBRegressor.setup, Facade.bind_apply,
      CreateDMatrix_ok env hok row0 rest hrest, safe_xgboost_create_ok env hok,
      safe_xgboost_ok env hok, Facade.modify, SetBoosterParams, Facade.self,
      setParamsLoop_ok env hok, List.append_assoc]
    exact ⟨_, rfl, rfl, rfl, rfl⟩

/-- A `Fit` of the regressor that goes through (every engine call succeeds, the matrix is
accepted) keeps every handle that was live, adds a new matrix and a new booster and points
`dtrain_` and `booster_` at them: a handle the object held before is still live and no
longer referenced. -/
theorem regressor_Fit_handles (env : Env) (hok : ∀ n, env.status n = 0) (X : List (List ℚ))
    (y : List ℚ) (start stop : ℚ) (m : Machine)
    (hX : X ≠ [] ∧ ∀ row ∈ X, row.length = (X.headD []).length) :
    (XGBRegressor.Fit env X y start stop m).2.engine.live
      = m.engine.live ++ [m.engine.fresh, m.engine.fresh + 1] ∧
    (XGBRegressor.Fit env X y start stop m).2.self.dtrain_ = some m.engine.fresh ∧
    (XGBRegressor.Fit env X y start stop m).2.self.booster_ = some (m.engine.fresh + 1) := by
  obtain ⟨m1, hset, hlive, hd, hb⟩ := regressor_setup_handles env hok X y m hX
  obtain ⟨k1, k2, _⟩ := fitIterations_keeps env start stop m1
  rw [XGBRegressor.Fit, Facade.bind_ok _ _ m m1 () hset, k1, k2]
  exact ⟨hlive, hd, hb⟩

/-- A `LoadModel` whose engine calls succeed keeps every live handle, adds a new booster and
points `booster_` at it. -/
theorem LoadModel_handles (env : Env) (hok : ∀ n, env.status n = 0) (filename : String)
    (m : Machine) :
    (LoadModel env filename m).1 = Except.ok () ∧
    (LoadModel env filename m).2.engine.live = m.engine.live ++ [m.engine.fresh] ∧
    (LoadModel env filename m).2.self.booster_ = some m.engine.fresh ∧
    (LoadModel env filename m).2.self.dtrain_ = m.self.dtrain_ := by
  simp [LoadModel, Facade.bind_apply, safe_xgboost_create_ok env hok,
    safe_xgboost_ok env hok, Facade.modify]

/-- C11. One regressor on an unused engine. After its first `Fit` the live handles are the
matrix 0 and the booster 1, both referenced: nothing is leaked. A second `Fit` on that same
object logs no freeing call: the live handles are 0, 1, 2, 3 while the object refers to the
matrix 2 and the booster 3, so the old matrix 0 and the old booster 1 are leaked and two
boosters are live. `LoadModel` after the first `Fit` likewise leaves the old booster 1 live
beside the new booster 2. Even the destructor, run after the second `Fit`, frees only 2 and
3. -/
theorem Fit_twice_leaks_handles :
    (exampleFitOnce.engine.live = [0, 1] ∧ exampleFitOnce.self.dtrain_ = some 0 ∧
      exampleFitOnce.self.booster_ = some 1 ∧ exampleFitOnce.NoLeak) ∧
    (exampleFitTwice.engine.live = [0, 1, 2, 3] ∧ exampleFitTwice.self.dtrain_ = some 2 ∧
      exampleFitTwice.self.booster_ = some 3 ∧
      exampleFitTwice.engine.log.filter Event.isFree = [] ∧ ¬ exampleFitTwice.NoLeak) ∧
    (exampleFitThenLoad.engine.live = [0, 1, 2] ∧ exampleFitThenLoad.self.booster_ = some 2 ∧
      exampleFitThenLoad.engine.log.filter Event.isFree = [] ∧
      ¬ exampleFitThenLoad.NoLeak) ∧
    (XGBModel.destroy exampleEnv exampleFitTwice).2.engine.live = [0, 1] := by
  refine ⟨by decide!, by decide!, by decide!, by decide!⟩

/-! ### Which exceptions can leave the facade -/

theorem onlyRuntime_pure {α : Type} (a : α) : OnlyRuntime (pure a : Facade α) := by
  intro m e h
  simp [Facade.pure_apply] at h

theorem onlyRuntime_bind {α β : Type} (x : Facade α) (f : α → Facade β)
    (hx : OnlyRuntime x) (hf : ∀ a, OnlyRuntime (f a)) : OnlyRuntime (x >>= f) := by
  intro m e h
  rw [Facade.bind_apply] at h
  cases hxm : x m with
  | mk r m1 =>
    cases r with
    | error e1 =>
      rw [hxm] at h
      have h1 : e1 = e := by simpa using h
      subst h1
      exact hx m e1 (by rw [hxm])
    | ok a =>
      rw [hxm] at h
      exact hf a m1 e h

theorem onlyRuntime_self : OnlyRuntime Facade.self := by
  intro m e h
  simp [Facade.self] at h

theorem onlyRuntime_modify (f : XGBModel → XGBModel) : OnlyRuntime (Facade.modify f) := by
  intro m e h
  simp [Facade.modify] at h

theorem onlyRuntime_emit (ev : Event) : OnlyRuntime (Facade.emit ev) := by
  intro m e h
  simp [Facade.emit] at h

theorem onlyRuntime_safe_xgboost (env : Env) (call : Event) :
    OnlyRuntime (safe_xgboost env call) := by
  intro m e h
  by_cases hs : env.status m.engine.calls = 0
  · simp [safe_xgboost, hs] at h
  · simp only [safe_xgboost, hs, if_false] at h
    exact (Except.error.inj h).symm

theorem onlyRuntime_safe_xgboost_create (env : Env) (call : Event) :
    OnlyRuntime (safe_xgboost_create env call) := by
  intro m e h
  by_cases hs : env.status m.engine.calls = 0
  · simp [safe_xgboost_create, hs] at h
  · simp only [safe_xgboost_create, hs, if_false] at h
    exact (Except.error.inj h).symm

theorem onlyRuntime_safe_xgboost_free (env : Env) (call : Event) (handle : Option Nat) :
    OnlyRuntime (safe_xgboost_free env call handle) := by
  intro m e h
  by_cases hs : env.status m.engine.calls = 0
  · simp [safe_xgboost_free, hs] at h
  · simp only [safe_xgboost_free, hs, if_false] at h
    exact (Except.error.inj h).symm

theorem onlyRuntime_freeHandle (env : Env) (call : Event) (handle : Option Nat) :
    OnlyRuntime (freeHandle env call handle) := by
  intro m e h
  simp [freeHandle] at h

theorem onlyRuntime_setParamsLoop (env : Env) (b : Option Nat) :
    ∀ ps : List (String × String), OnlyRuntime (setParamsLoop env b ps) := by
  intro ps
  induction ps with
  | nil => exact onlyRuntime_pure ()
  | cons p rest ih =>
    obtain ⟨k, v⟩ := p
    unfold setParamsLoop
    exact onlyRuntime_bind _ _ (onlyRuntime_safe_xgboost env _) (fun _ => ih)

theorem onlyRuntime_SetBoosterParams (env : Env) : OnlyRuntime (SetBoosterParams env) := by
  unfold SetBoosterParams
  exact onlyRuntime_bind _ _ onlyRuntime_self (fun s => onlyRuntime_setParamsLoop env _ _)

theorem onlyRuntime_trainLoop (env : Env) (n_iter : Int) (start width : ℚ) :
    ∀ (remaining i : Nat), OnlyRuntime (trainLoop env n_iter start width remaining i) := by
  intro remaining
  induction remaining with
  | zero => intro i; exact onlyRuntime_pure ()
  | succ r ih =>
    intro i
    unfold trainLoop
    by_cases ht : env.terminated i = true
    · simp only [ht, if_true]
      exact onlyRuntime_emit _
    · simp only [ht, Bool.false_eq_true, if_false]
      exact onlyRuntime_bind _ _ onlyRuntime_self (fun s =>
        onlyRuntime_bind _ _ (onlyRuntime_safe_xgboost env _) (fun _ =>
          onlyRuntime_bind _ _ (onlyRuntime_emit _) (fun _ => ih (i + 1))))

theorem onlyRuntime_fitIterations (env : Env) (start stop : ℚ) :
    OnlyRuntime (fitIterations env start stop) := by
  unfold fitIterations
  exact onlyRuntime_bind _ _ onlyRuntime_self (fun s => onlyRuntime_trainLoop env _ _ _ _ _)

/-- On a matrix with a row and all rows as long as the first, `CreateDMatrix` throws nothing
but the `runtime_error` of a failed engine call. -/
theorem onlyRuntime_CreateDMatrix (env : Env) (X : List (List ℚ))
    (hX : X ≠ [] ∧ ∀ row ∈ X, row.length = (X.headD []).length) :
    OnlyRuntime (CreateDMatrix env X) := by
  obtain ⟨hne, hrect⟩ := hX
  cases X with
  | nil => exact absurd rfl hne
  | cons row0 rest =>
    have hrest : ∀ row ∈ rest, row.length = row0.length := fun row hr =>
      hrect row (List.mem_cons_of_mem _ hr)
    intro m e h
    rw [CreateDMatrix_cons, if_pos hrest] at h
    exact onlyRuntime_safe_xgboost_create env _ _ e h

theorem onlyRuntime_regressor_Fit (env : Env) (X : List (List ℚ)) (y : List ℚ)
    (start stop : ℚ) (hX : X ≠ [] ∧ ∀ row ∈ X, row.length = (X.headD []).length) :
    OnlyRuntime (XGBRegressor.Fit env X y start stop) := by
  unfold XGBRegressor.Fit XGBRegressor.setup
  repeat' first
    | exact onlyRuntime_CreateDMatrix env X hX
    | exact onlyRuntime_SetBoosterParams env
    | exact onlyRuntime_fitIterations env start stop
    | exact onlyRuntime_modify _
    | exact onlyRuntime_safe_xgboost env _
    | exact onlyRuntime_safe_xgboost_create env _
    | exact onlyRuntime_pure _
    | apply onlyRuntime_bind
    | intro (_ : Unit)
    | intro (_ : ℕ)

theorem onlyRuntime_classifier_Fit (env : Env) (X : List (List ℚ)) (y stabilizer : List ℚ)
    (start stop : ℚ) (hX : X ≠ [] ∧ ∀ row ∈ X, row.length = (X.headD []).length) :
    OnlyRuntime (XGBClassifier.Fit env X y stabilizer start stop) := by
  unfold XGBClassifier.Fit XGBClassifier.setup
  repeat' first
    | exact onlyRuntime_CreateDMatrix env X hX
    | exact onlyRuntime_SetBoosterParams env
    | exact onlyRuntime_fitIterations env start stop
    | exact onlyRuntime_modify _
    | exact onlyRuntime_safe_xgboost env _
    | exact onlyRuntime_safe_xgboost_create env _
    | exact onlyRuntime_pure _
    | apply onlyRuntime_bind
    | intro (_ : Unit)
    | intro (_ : ℕ)
    | split

theorem onlyRuntime_regressor_Predict (env : Env) (X : List (List ℚ)) (out_result : List ℚ)
    (hX : X ≠ [] ∧ ∀ row ∈ X, row.length = (X.headD []).length) :
    OnlyRuntime (XGBRegressor.Predict env X out_result) := by
  unfold XGBRegressor.Predict
  repeat' first
    | exact onlyRuntime_CreateDMatrix env X hX
    | exact onlyRuntime_self
    | exact onlyRuntime_safe_xgboost env _
    | exact onlyRuntime_safe_xgboost_free env _ _
    | exact onlyRuntime_pure _
    | apply onlyRuntime_bind
    | intro (_ : Unit)
    | intro (_ : ℕ)
    | intro (_ : XGBModel)

theorem onlyRuntime_classifier_Predict (env : Env) (X : List (List ℚ)) (out_result : List ℚ)
    (hX : X ≠ [] ∧ ∀ row ∈ X, row.length = (X.headD []).length) :
    OnlyRuntime (XGBClassifier.Predict env X out_result) := by
  unfold XGBClassifier.Predict
  repeat' first
    | exact onlyRuntime_CreateDMatrix env X hX
    | exact onlyRuntime_self
    | exact onlyRuntime_safe_xgboost env _
    | exact onlyRuntime_freeHandle env _ _
    | exact onlyRuntime_pure _
    | apply onlyRuntime_bind
    | intro (_ : Unit)
    | intro (_ : ℕ)
    | intro (_ : XGBModel)

/-! ### The split feeds accepted matrices to `Fit` and `Predict` -/

/-- When the split loop has produced `sp` and its training matrix has a row and rows of one
length, the `Fit` inside `startTraining` cannot end the slot with `invalid_argument`. -/
theorem startTraining_not_invalid (env : Env) (w : MainWindow) (indices : List Nat) (sp : Split)
    (hfeat : featureIndicesOf w.featureTable_ ≠ [])
    (htarget : 0 ≤ w.targetBox_currentIndex) (hN : 2 ≤ w.dataRows_.length)
    (hsp : splitRows w.dataRows_ (featureIndicesOf w.featureTable_)
      w.targetBox_currentIndex.toNat (w.stabilizerBox_currentIndex - 1)
      (trainCountOf w.dataRows_.length) indices = some sp)
    (hacc : sp.features_ ≠ [] ∧
      ∀ row ∈ sp.features_, row.length = (sp.features_.headD []).length)
    (w1 : MainWindow) (out : Outcome) (hrun : startTraining env w indices = some (w1, out))
    (what : String) : out ≠ Outcome.thrown (Error.invalid_argument what) := by
  have h1 : (featureIndicesOf w.featureTable_).isEmpty = false := by
    cases h : featureIndicesOf w.featureTable_ with
    | nil => exact absurd h hfeat
    | cons a t => rfl
  have h2 : ¬ w.targetBox_currentIndex < 0 := by omega
  have h3 : ¬ w.dataRows_.length < 2 := by omega
  have hfit : ∀ (c1 c2 : Bool) (stab : List ℚ),
      OnlyRuntime (if c1 = true then XGBClassifier.Fit env sp.features_ sp.targets_ stab 0 1
        else if c2 = true then XGBRegressor.Fit env sp.features_ sp.targets_ 0 1
        else XGBClassifier.FitNoStabilizer env sp.features_ sp.targets_ 0 1) := by
    intro c1 c2 stab
    cases c1 <;> cases c2
    · exact onlyRuntime_classifier_Fit env _ _ _ _ _ hacc
    · exact onlyRuntime_regressor_Fit env _ _ _ _ hacc
    · exact onlyRuntime_classifier_Fit env _ _ _ _ _ hacc
    · exact onlyRuntime_classifier_Fit env _ _ _ _ _ hacc
  intro hout
  subst hout
  cases hm : w.model_ <;>
  · simp only [startTraining, h1, Bool.false_eq_true, if_false, h2, h3, hsp, hm] at hrun
    split at hrun
    · rename_i e m heq
      have he := hfit _ _ _ _ e (by rw [heq])
      simp only [Option.some.injEq, Prod.mk.injEq, Outcome.thrown.injEq] at hrun
      rw [hrun.2] at he
      exact absurd he (by simp)
    · simp at hrun

/-- The split loop of a window that holds a dataset, run on a permutation of the row
indices, ends with the vectors of `splitAfter` at the full row count. -/
theorem splitRows_eq (w : MainWindow) (indices : List Nat) (htarget : 0 ≤ w.targetBox_currentIndex)
    (hds : w.HoldsDataset) (hperm : indices.Perm (List.range w.dataRows_.length)) :
    splitRows w.dataRows_ (featureIndicesOf w.featureTable_) w.targetBox_currentIndex.toNat
        (w.stabilizerBox_currentIndex - 1) (trainCountOf w.dataRows_.length) indices
      = some (splitAfter w.dataRows_ (featureIndicesOf w.featureTable_)
          w.targetBox_currentIndex.toNat (w.stabilizerBox_currentIndex - 1)
          (66 * w.dataRows_.length / 100) indices w.dataRows_.length) := by
  have hlen : indices.length = w.dataRows_.length := by
    rw [hperm.length_eq, List.length_range]
  have hidx : ∀ i, i < w.dataRows_.length →
      ∃ row, indices[i]? = some row ∧ row < w.dataRows_.length := by
    intro i hi
    have hi2 : i < indices.length := by omega
    refine ⟨indices[i], List.getElem?_eq_getElem hi2, ?_⟩
    exact List.mem_range.1 (hperm.mem_iff.1 (List.getElem_mem hi2))
  have hf : ∀ f ∈ featureIndicesOf w.featureTable_, f < w.columnNames_.length := by
    intro f hfm
    rw [← hds.table]
    exact mem_featureIndicesOf _ f hfm
  have ht : w.targetBox_currentIndex.toNat < w.columnNames_.length := by
    have := hds.target
    omega
  have hs : 0 ≤ w.stabilizerBox_currentIndex - 1 →
      (w.stabilizerBox_currentIndex - 1).toNat < w.columnNames_.length := by
    intro h0
    have := hds.stabilizer
    omega
  rw [trainCountOf_eq_div]
  exact foldlM_splitStep w.dataRows_ (featureIndicesOf w.featureTable_)
    w.targetBox_currentIndex.toNat (w.stabilizerBox_currentIndex - 1)
    (66 * w.dataRows_.length / 100) indices w.columnNames_.length hidx hds.rows hf ht hs
    w.dataRows_.length (le_refl _)

theorem trainCountOf_bounds (N : Nat) (hN : 2 ≤ N) :
    1 ≤ trainCountOf N ∧ trainCountOf N ≤ (N : Int) - 1 := by
  rw [trainCountOf_eq_div]
  omega

/-- A matrix of at least one row whose rows all have length `n` passes both tests of
`CreateDMatrix`. -/
theorem accepted_of_rows (X : List (List ℚ)) (n : Nat) (hne : X ≠ [])
    (hrows : ∀ row ∈ X, row.length = n) :
    X ≠ [] ∧ ∀ row ∈ X, row.length = (X.headD []).length := by
  refine ⟨hne, ?_⟩
  cases X with
  | nil => exact absurd rfl hne
  | cons row0 rest =>
    intro row hr
    rw [List.headD_cons, hrows row hr, hrows row0 (List.mem_cons_self _ _)]

/-- On a window whose test matrix has a row and rows of one length, the slot `predict` ends
neither with `invalid_argument` nor with "No test data available". -/
theorem predict_not_invalid (env : Env) (number : ℚ → String) (w : MainWindow)
    (out_result : List ℚ) (save : SaveInput) (what : String)
    (hacc : w.features_test_ ≠ [] ∧
      ∀ row ∈ w.features_test_, row.length = (w.features_test_.headD []).length) :
    (predict env number w out_result save).2.1
        ≠ some (Outcome.thrown (Error.invalid_argument what)) ∧
    (predict env number w out_result save).2.1
        ≠ some (Outcome.message (Message.warning "No test data available")) := by
  have hemp : w.features_test_.isEmpty = false := by
    cases h : w.features_test_ with
    | nil => exact absurd h hacc.1
    | cons a t => rfl
  cases hm : w.model_ with
  | none => simp [predict, hm]
  | some p =>
    obtain ⟨kind, self⟩ := p
    cases kind with
    | regressor =>
      have hr := onlyRuntime_regressor_Predict env w.features_test_ out_result hacc
        { engine := w.engine, self := self }
      cases hres : XGBRegressor.Predict env w.features_test_ out_result
          { engine := w.engine, self := self } with
      | mk r m =>
        cases r with
        | error e =>
          have he := hr e (by rw [hres])
          subst he
          simp [predict, hm, hemp, hres, Facade.bind_apply]
        | ok preds =>
          by_cases hl : preds.length = w.targets_test_.length
          · cases save <;> simp [predict, hm, hemp, hres, hl, Facade.bind_apply, Facade.pure_apply]
          · simp [predict, hm, hemp, hres, hl, Facade.bind_apply, Facade.pure_apply]
    | classifier =>
      have hr := onlyRuntime_classifier_Predict env w.features_test_ out_result hacc
        { engine := w.engine, self := self }
      cases hres : XGBClassifier.Predict env w.features_test_ out_result
          { engine := w.engine, self := self } with
      | mk r m =>
        cases r with
        | error e =>
          have he := hr e (by rw [hres])
          subst he
          simp [predict, hm, hemp, hres]
        | ok preds =>
          by_cases hl : preds.length = w.targets_test_.length
          · cases save <;> simp [predict, hm, hemp, hres, hl]
          · simp [predict, hm, hemp, hres, hl]

/-- C12. The split never produces an empty group. For every row count `N ≥ 2` the train
count `trunc(0.66 * N)` lies between 1 and `N - 1`. So for a window holding a dataset of
`N ≥ 2` rows, with a feature checked and a target chosen, and `indices` a permutation of the
row indices, `startTraining` leaves a training and a test feature matrix that are both
non-empty and in which every row has as many entries as there are selected features;
`CreateDMatrix` rejects neither of them, whatever the engine does; the `Fit` inside the slot
does not end it with `invalid_argument`; and the slot `predict` on that window ends neither
with `invalid_argument` nor with "No test data available". -/
theorem split_groups_accepted (env : Env) (w : MainWindow) (indices : List Nat)
    (hfeat : featureIndicesOf w.featureTable_ ≠ [])
    (htarget : 0 ≤ w.targetBox_currentIndex) (hN : 2 ≤ w.dataRows_.length)
    (hds : w.HoldsDataset) (hperm : indices.Perm (List.range w.dataRows_.length)) :
    (∀ N : Nat, 2 ≤ N → 1 ≤ trainCountOf N ∧ trainCountOf N ≤ (N : Int) - 1) ∧
    ∃ w1 out, startTraining env w indices = some (w1, out) ∧
      (w1.features_.length : Int) = trainCountOf w.dataRows_.length ∧
      (w1.features_test_.length : Int)
        = (w.dataRows_.length : Int) - trainCountOf w.dataRows_.length ∧
      w1.features_ ≠ [] ∧ w1.features_test_ ≠ [] ∧
      (∀ row ∈ w1.features_, row.length = (featureIndicesOf w.featureTable_).length) ∧
      (∀ row ∈ w1.features_test_, row.length = (featureIndicesOf w.featureTable_).length) ∧
      (∀ (env1 : Env) (m : Machine) (what : String),
        (CreateDMatrix env1 w1.features_ m).1 ≠ Except.error (Error.invalid_argument what) ∧
        (CreateDMatrix env1 w1.features_test_ m).1
          ≠ Except.error (Error.invalid_argument what)) ∧
      (∀ what : String, out ≠ Outcome.thrown (Error.invalid_argument what)) ∧
      (∀ (env1 : Env) (number : ℚ → String) (out_result : List ℚ) (save : SaveInput)
          (what : String),
        (predict env1 number w1 out_result save).2.1
            ≠ some (Outcome.thrown (Error.invalid_argument what)) ∧
        (predict env1 number w1 out_result save).2.1
            ≠ some (Outcome.message (Message.warning "No test data available"))) := by
  refine ⟨trainCountOf_bounds, ?_⟩
  have hsp := splitRows_eq w indices htarget hds hperm
  obtain ⟨w1, out, hrun, e1, _, _, e4, _, _, _⟩ :=
    startTraining_of_split env w indices _ hfeat htarget hN hsp
  have hlen : indices.length = w.dataRows_.length := by
    rw [hperm.length_eq, List.length_range]
  have htc : 66 * w.dataRows_.length / 100 ≤ w.dataRows_.length := by omega
  have htc1 : 1 ≤ 66 * w.dataRows_.length / 100 := by omega
  have htc2 : 66 * w.dataRows_.length / 100 < w.dataRows_.length := by omega
  have hmin : min w.dataRows_.length (66 * w.dataRows_.length / 100)
      = 66 * w.dataRows_.length / 100 := by omega
  have htake : indices.take w.dataRows_.length = indices := by
    rw [← hlen]; exact List.take_length indices
  have f1 : w1.features_ = (indices.take (66 * w.dataRows_.length / 100)).map
      (fun row => (featureIndicesOf w.featureTable_).map (cell w.dataRows_ row)) := by
    rw [e1]; simp only [splitAfter, hmin]
  have f4 : w1.features_test_ = (indices.drop (66 * w.dataRows_.length / 100)).map
      (fun row => (featureIndicesOf w.featureTable_).map (cell w.dataRows_ row)) := by
    rw [e4]; simp only [splitAfter, htake]
  have l1 : w1.features_.length = 66 * w.dataRows_.length / 100 := by
    rw [f1, List.length_map, List.length_take, hlen]; omega
  have l4 : w1.features_test_.length = w.dataRows_.length - 66 * w.dataRows_.length / 100 := by
    rw [f4, List.length_map, List.length_drop, hlen]
  have n1 : w1.features_ ≠ [] := by
    intro h; rw [h] at l1; simp at l1; omega
  have n4 : w1.features_test_ ≠ [] := by
    intro h; rw [h] at l4; simp at l4; omega
  have r1 : ∀ row ∈ w1.features_, row.length = (featureIndicesOf w.featureTable_).length := by
    intro row hr
    rw [f1, List.mem_map] at hr
    obtain ⟨_, _, rfl⟩ := hr
    exact List.length_map _ _
  have r4 : ∀ row ∈ w1.features_test_,
      row.length = (featureIndicesOf w.featureTable_).length := by
    intro row hr
    rw [f4, List.mem_map] at hr
    obtain ⟨_, _, rfl⟩ := hr
    exact List.length_map _ _
  have a1 := accepted_of_rows w1.features_ _ n1 r1
  have a4 := accepted_of_rows w1.features_test_ _ n4 r4
  refine ⟨w1, out, hrun, ?_, ?_, n1, n4, r1, r4, ?_, ?_, ?_⟩
  · rw [trainCountOf_eq_div, l1]
  · rw [trainCountOf_eq_div, l4]; omega
  · intro env1 m what
    constructor
    · intro h
      have := onlyRuntime_CreateDMatrix env1 w1.features_ a1 m _ h
      exact absurd this (by simp)
    · intro h
      have := onlyRuntime_CreateDMatrix env1 w1.features_test_ a4 m _ h
      exact absurd this (by simp)
  · intro what
    exact startTraining_not_invalid env w indices _ hfeat htarget hN hsp (by rw [← e1]; exact a1)
      w1 out hrun what
  · intro env1 number out_result save what
    exact predict_not_invalid env1 number w1 out_result save what a4

/-- Witness of C12 at the window of the end-to-end example (`N = 3`, train count 1) and the
shuffle result `[2, 0, 1]`. -/
theorem split_groups_accepted_witness :
    featureIndicesOf exampleWindow.featureTable_ ≠ [] ∧
    0 ≤ exampleWindow.targetBox_currentIndex ∧
    2 ≤ exampleWindow.dataRows_.length ∧
    [2, 0, 1].Perm (List.range exampleWindow.dataRows_.length) ∧
    ∃ w1 out, startTraining exampleEnv exampleWindow [2, 0, 1] = some (w1, out) ∧
      (w1.features_.length : Int) = trainCountOf exampleWindow.dataRows_.length ∧
      (w1.features_test_.length : Int)
        = (exampleWindow.dataRows_.length : Int) - trainCountOf exampleWindow.dataRows_.length ∧
      w1.features_ ≠ [] ∧ w1.features_test_ ≠ [] ∧
      (∀ row ∈ w1.features_,
        row.length = (featureIndicesOf exampleWindow.featureTable_).length) ∧
      (∀ row ∈ w1.features_test_,
        row.length = (featureIndicesOf exampleWindow.featureTable_).length) ∧
      (∀ (env1 : Env) (m : Machine) (what : String),
        (CreateDMatrix env1 w1.features_ m).1 ≠ Except.error (Error.invalid_argument what) ∧
        (CreateDMatrix env1 w1.features_test_ m).1
          ≠ Except.error (Error.invalid_argument what)) ∧
      (∀ what : String, out ≠ Outcome.thrown (Error.invalid_argument what)) ∧
      (∀ (env1 : Env) (number : ℚ → String) (out_result : List ℚ) (save : SaveInput)
          (what : String),
        (predict env1 number w1 out_result save).2.1
            ≠ some (Outcome.thrown (Error.invalid_argument what)) ∧
        (predict env1 number w1 out_result save).2.1
            ≠ some (Outcome.message (Message.warning "No test data available"))) :=
  ⟨by decide, by decide, by decide!, by decide!,
    (split_groups_accepted exampleEnv exampleWindow [2, 0, 1] (by decide) (by decide)
      (by decide!) exampleWindow_holdsDataset (by decide!)).2⟩

/-! ### What a member function logs -/

theorem logsOnly_pure {α : Type} (P : Event → Prop) (a : α) :
    LogsOnly P (pure a : Facade α) := by
  intro m
  exact ⟨[], by simp [Facade.pure_apply], by simp⟩

theorem logsOnly_bind {α β : Type} (P : Event → Prop) (x : Facade α) (f : α → Facade β)
    (hx : LogsOnly P x) (hf : ∀ a, LogsOnly P (f a)) : LogsOnly P (x >>= f) := by
  intro m
  obtain ⟨evs1, h1, p1⟩ := hx m
  rw [Facade.bind_apply]
  cases hxm : x m with
  | mk r m1 =>
    rw [hxm] at h1
    cases r with
    | error e => exact ⟨evs1, h1, p1⟩
    | ok a =>
      obtain ⟨evs2, h2, p2⟩ := hf a m1
      refine ⟨evs1 ++ evs2, ?_, ?_⟩
      · simp only at h1 ⊢
        rw [h2, h1, List.append_assoc]
      · intro ev hev
        rcases List.mem_append.1 hev with h | h
        · exact p1 ev h
        · exact p2 ev h

theorem logsOnly_self (P : Event → Prop) : LogsOnly P Facade.self := by
  intro m
  exact ⟨[], by simp [Facade.self], by simp⟩

theorem logsOnly_modify (P : Event → Prop) (f : XGBModel → XGBModel) :
    LogsOnly P (Facade.modify f) := by
  intro m
  exact ⟨[], by simp [Facade.modify], by simp⟩

theorem logsOnly_throw {α : Type} (P : Event → Prop) (e : Error) :
    LogsOnly P (Facade.throw e : Facade α) := by
  intro m
  exact ⟨[], by simp [Facade.throw], by simp⟩

theorem logsOnly_emit (P : Event → Prop) (ev : Event) (h : P ev) :
    LogsOnly P (Facade.emit ev) := by
  intro m
  exact ⟨[ev], by simp [Facade.emit], by simpa using h⟩

theorem logsOnly_safe_xgboost (P : Event → Prop) (env : Env) (call : Event) (h : P call) :
    LogsOnly P (safe_xgboost env call) := by
  intro m
  refine ⟨[call], ?_, by simpa using h⟩
  by_cases hs : env.status m.engine.calls = 0 <;> simp [safe_xgboost, hs]

theorem logsOnly_safe_xgboost_create (P : Event → Prop) (env : Env) (call : Event)
    (h : P call) : LogsOnly P (safe_xgboost_create env call) := by
  intro m
  refine ⟨[call], ?_, by simpa using h⟩
  by_cases hs : env.status m.engine.calls = 0 <;> simp [safe_xgboost_create, hs]

theorem logsOnly_CreateDMatrix (P : Event → Prop) (env : Env) (X : List (List ℚ))
    (h : ∀ data nrow ncol, P (Event.XGDMatrixCreateFromMat data nrow ncol)) :
    LogsOnly P (CreateDMatrix env X) := by
  cases X with
  | nil => exact logsOnly_throw P _
  | cons row0 rest =>
    intro m
    rw [CreateDMatrix_cons]
    by_cases hr : ∀ row ∈ rest, row.length = row0.length
    · rw [if_pos hr]
      obtain ⟨evs, h1, h2⟩ := logsOnly_safe_xgboost_create P env _ (h _ _ _)
        { m with self := { m.self with n_features_ := row0.length } }
      exact ⟨evs, h1, h2⟩
    · rw [if_neg hr]
      exact ⟨[], by simp, by simp⟩

theorem logsOnly_setParamsLoop (P : Event → Prop) (env : Env) (b : Option Nat)
    (h : ∀ k v, P (Event.XGBoosterSetParam b k v)) :
    ∀ ps : List (String × String), LogsOnly P (setParamsLoop env b ps) := by
  intro ps
  induction ps with
  | nil => exact logsOnly_pure P ()
  | cons p rest ih =>
    obtain ⟨k, v⟩ := p
    unfold setParamsLoop
    exact logsOnly_bind P _ _ (logsOnly_safe_xgboost P env _ (h k v)) (fun _ => ih)

theorem logsOnly_SetBoosterParams (P : Event → Prop) (env : Env)
    (h : ∀ b k v, P (Event.XGBoosterSetParam b k v)) : LogsOnly P (SetBoosterParams env) := by
  unfold SetBoosterParams
  exact logsOnly_bind P _ _ (logsOnly_self P)
    (fun s => logsOnly_setParamsLoop P env _ (h _) _)

theorem logsOnly_trainLoop (P : Event → Prop) (env : Env) (n_iter : Int) (start width : ℚ)
    (h1 : ∀ text, P (Event.qWarning text))
    (h2 : ∀ b i d, P (Event.XGBoosterUpdateOneIter b i d))
    (h3 : ∀ v, P (Event.progress v)) :
    ∀ (remaining i : Nat), LogsOnly P (trainLoop env n_iter start width remaining i) := by
  intro remaining
  induction remaining with
  | zero => intro i; exact logsOnly_pure P ()
  | succ r ih =>
    intro i
    unfold trainLoop
    by_cases ht : env.terminated i = true
    · simp only [ht, if_true]
      exact logsOnly_emit P _ (h1 _)
    · simp only [ht, Bool.false_eq_true, if_false]
      exact logsOnly_bind P _ _ (logsOnly_self P) (fun s =>
        logsOnly_bind P _ _ (logsOnly_safe_xgboost P env _ (h2 _ _ _)) (fun _ =>
          logsOnly_bind P _ _ (logsOnly_emit P _ (h3 _)) (fun _ => ih (i + 1))))

theorem logsOnly_fitIterations (P : Event → Prop) (env : Env) (start stop : ℚ)
    (h1 : ∀ text, P (Event.qWarning text))
    (h2 : ∀ b i d, P (Event.XGBoosterUpdateOneIter b i d))
    (h3 : ∀ v, P (Event.progress v)) : LogsOnly P (fitIterations env start stop) := by
  unfold fitIterations
  exact logsOnly_bind P _ _ (logsOnly_self P)
    (fun s => logsOnly_trainLoop P env _ _ _ h1 h2 h3 _ _)

theorem weightIs_weight (ws : List ℚ) (h : Option Nat) :
    Event.weightIs ws (Event.XGDMatrixSetFloatInfo h "weight" ws) := by
  intro h1 info heq
  simp only [Event.XGDMatrixSetFloatInfo.injEq] at heq
  exact heq.2.2.symm

theorem weightIs_label (ws : List ℚ) (h : Option Nat) (info : List ℚ) :
    Event.weightIs ws (Event.XGDMatrixSetFloatInfo h "label" info) := by
  intro h1 info1 heq
  simp only [Event.XGDMatrixSetFloatInfo.injEq] at heq
  exact absurd heq.2.1 (by decide)

/-- The guard of the weight block holds for a non-empty stabilizer as long as the label
vector: the vector handed on is `sampleWeights stabilizer`. -/
theorem fitWeights_of_labels (stabilizer y : List ℚ) (hne : stabilizer ≠ [])
    (hlen : stabilizer.length = y.length) :
    fitWeights stabilizer (EncodeLabels (y.map Label.num)).encoded
      = some (sampleWeights stabilizer) :=
  fitWeights_eq stabilizer _ hne
    (by rw [EncodeLabels_encoded_length, List.length_map]; exact hlen)

/-- Whatever the engine does, every "weight" vector classification `Fit` attaches for a
non-empty stabilizer as long as the labels is `sampleWeights stabilizer`. -/
theorem logsOnly_classifier_Fit (env : Env) (X : List (List ℚ)) (y stabilizer : List ℚ)
    (start stop : ℚ) (hne : stabilizer ≠ []) (hlen : stabilizer.length = y.length) :
    LogsOnly (Event.weightIs (sampleWeights stabilizer))
      (XGBClassifier.Fit env X y stabilizer start stop) := by
  have hfw := fitWeights_of_labels stabilizer y hne hlen
  unfold XGBClassifier.Fit XGBClassifier.setup
  simp only [hfw]
  repeat' first
    | exact logsOnly_CreateDMatrix _ env X (fun _ _ _ _ _ heq => by simp at heq)
    | exact logsOnly_SetBoosterParams _ env (fun _ _ _ _ _ heq => by simp at heq)
    | exact logsOnly_fitIterations _ env start stop (fun _ _ _ heq => by simp at heq)
        (fun _ _ _ _ _ heq => by simp at heq) (fun _ _ _ heq => by simp at heq)
    | exact logsOnly_modify _ _
    | exact logsOnly_safe_xgboost _ env _ (weightIs_weight _ _)
    | exact logsOnly_safe_xgboost _ env _ (weightIs_label _ _ _)
    | exact logsOnly_safe_xgboost_create _ env _ (fun _ _ heq => by simp at heq)
    | exact logsOnly_pure _ _
    | apply logsOnly_bind
    | intro (_ : Unit)
    | intro (_ : ℕ)

/-- With every engine call succeeding and an accepted matrix, the first part of
`XGBClassifier::Fit` run under the guard of the weight block stores the new matrix in
`dtrain_` and attaches `sampleWeights stabilizer` to it as "weight". -/
theorem classifier_setup_weight (env : Env) (hok : ∀ n, env.status n = 0)
    (X : List (List ℚ)) (y stabilizer : List ℚ) (m : Machine)
    (hX : X ≠ [] ∧ ∀ row ∈ X, row.length = (X.headD []).length)
    (hne : stabilizer ≠ []) (hlen : stabilizer.length = y.length) :
    ∃ m1 pre post, XGBClassifier.setup env X y stabilizer m = (Except.ok (), m1) ∧
      m1.self.dtrain_ = some m.engine.fresh ∧
      m1.engine.log = m.engine.log ++ (pre ++
        Event.XGDMatrixSetFloatInfo (some m.engine.fresh) "weight" (sampleWeights stabilizer)
          :: post) := by
  obtain ⟨hne1, hrect⟩ := hX
  have hfw := fitWeights_of_labels stabilizer y hne hlen
  cases X with
  | nil => exact absurd rfl hne1
  | cons row0 rest =>
    have hrest : ∀ row ∈ rest, row.length = row0.length := fun row hr =>
      hrect row (List.mem_cons_of_mem _ hr)
    simp only [XGBClassifier.setup, Facade.bind_apply,
      CreateDMatrix_ok env hok row0 rest hrest, safe_xgboost_create_ok env hok,
      safe_xgboost_ok env hok, Facade.modify, SetBoosterParams, Facade.self,
      setParamsLoop_ok env hok, List.append_assoc, hfw, Facade.pure_apply]
    exact ⟨_, [_, _], _, rfl, rfl, rfl⟩

/-- With every engine call succeeding and an accepted matrix, `XGBClassifier::Fit` run under
the guard of the weight block ends with the new matrix in `dtrain_`, and among the events it
logged is the call attaching `sampleWeights stabilizer` to that matrix as "weight". -/
theorem classifier_Fit_attaches (env : Env) (hok : ∀ n, env.status n = 0)
    (X : List (List ℚ)) (y stabilizer : List ℚ) (start stop : ℚ) (m : Machine)
    (hX : X ≠ [] ∧ ∀ row ∈ X, row.length = (X.headD []).length)
    (hne : stabilizer ≠ []) (hlen : stabilizer.length = y.length) :
    Event.XGDMatrixSetFloatInfo (XGBClassifier.Fit env X y stabilizer start stop m).2.self.dtrain_
        "weight" (sampleWeights stabilizer)
      ∈ (XGBClassifier.Fit env X y stabilizer start stop m).2.engine.log.drop
          m.engine.log.length := by
  obtain ⟨m1, pre, post, hset, hd, hlog⟩ :=
    classifier_setup_weight env hok X y stabilizer m hX hne hlen
  obtain ⟨evs, hevs, _⟩ :=
    logsOnly_fitIterations (fun _ => True) env start stop (fun _ => trivial)
      (fun _ _ _ => trivial) (fun _ => trivial) m1
  have hfit : XGBClassifier.Fit env X y stabilizer start stop m
      = fitIterations env start stop m1 := by
    rw [XGBClassifier.Fit, Facade.bind_ok _ _ m m1 () hset]
  rw [hfit, (fitIterations_keeps env start stop m1).1, hd, hevs, hlog, List.append_assoc,
    List.drop_left]
  simp

/-- Whatever the engine does, every "weight" vector among the events `XGBClassifier::Fit`
logged, for a non-empty stabilizer as long as the labels, is `sampleWeights stabilizer`. -/
theorem classifier_Fit_weight_events (env : Env) (X : List (List ℚ)) (y stabilizer : List ℚ)
    (start stop : ℚ) (m : Machine) (hne : stabilizer ≠ [])
    (hlen : stabilizer.length = y.length) (h : Option Nat) (info : List ℚ)
    (hmem : Event.XGDMatrixSetFloatInfo h "weight" info
      ∈ (XGBClassifier.Fit env X y stabilizer start stop m).2.engine.log.drop
          m.engine.log.length) :
    info = sampleWeights stabilizer := by
  obtain ⟨evs, hevs, hP⟩ := logsOnly_classifier_Fit env X y stabilizer start stop hne hlen m
  rw [hevs, List.drop_left] at hmem
  exact hP _ hmem h info rfl

/-- C4. Sample weights have mean 1. For every non-empty stabilizer as long as the training
labels, in exact arithmetic: the mean of the values `max(0.01, 1 - 0.9 s_i)` is not zero;
whatever the engine does, every vector that classification `Fit` attaches as "weight" is the
vector of the values `max(0.01, 1 - 0.9 s_i)` divided by that mean, has one entry per
training label and has arithmetic mean exactly 1; and when every engine call succeeds and
`CreateDMatrix` accepts the feature matrix, `Fit` does attach such a vector, to the training
matrix it leaves in `dtrain_`. -/
theorem Fit_weights_mean_one (env : Env) (X : List (List ℚ)) (y stabilizer : List ℚ)
    (start stop : ℚ) (m : Machine)
    (hne : stabilizer ≠ []) (hlen : stabilizer.length = y.length) :
    (stabilizer.map (fun s => max (1 / 100) (1 - 9 / 10 * s))).sum / (stabilizer.length : ℚ)
      ≠ 0 ∧
    (∀ h info, Event.XGDMatrixSetFloatInfo h "weight" info
        ∈ (XGBClassifier.Fit env X y stabilizer start stop m).2.engine.log.drop
            m.engine.log.length →
      info = stabilizer.map (fun s => max (1 / 100) (1 - 9 / 10 * s) /
          ((stabilizer.map (fun s => max (1 / 100) (1 - 9 / 10 * s))).sum
            / (stabilizer.length : ℚ))) ∧
      info.length = y.length ∧
      info.sum / (info.length : ℚ) = 1) ∧
    ((∀ n, env.status n = 0) →
      (X ≠ [] ∧ ∀ row ∈ X, row.length = (X.headD []).length) →
      ∃ info, Event.XGDMatrixSetFloatInfo
          (XGBClassifier.Fit env X y stabilizer start stop m).2.self.dtrain_ "weight" info
        ∈ (XGBClassifier.Fit env X y stabilizer start stop m).2.engine.log.drop
            m.engine.log.length) := by
  obtain ⟨hl, hform, hmean, hone⟩ := sampleWeights_facts stabilizer hne
  refine ⟨hmean, ?_, ?_⟩
  · intro h info hmem
    have hinfo := classifier_Fit_weight_events env X y stabilizer start stop m hne hlen h info
      hmem
    rw [hinfo]
    exact ⟨hform, by rw [hl, hlen], hone⟩
  · intro hok hX
    exact ⟨_, classifier_Fit_attaches env hok X y stabilizer start stop m hX hne hlen⟩

/-- Witness of C4: the classifier of the example on a 2 x 2 feature matrix with the labels
`[5, 6]` and the stabilizer `[1/2, 1]`; every engine call succeeds, so a "weight" vector is
attached. -/
theorem Fit_weights_mean_one_witness :
    ([1 / 2, 1] : List ℚ) ≠ [] ∧
    ([1 / 2, 1] : List ℚ).length = ([5, 6] : List ℚ).length ∧
    (∀ h info, Event.XGDMatrixSetFloatInfo h "weight" info
        ∈ (XGBClassifier.Fit exampleEnv [[1, 2], [3, 4]] [5, 6] [1 / 2, 1] 0 1
            exampleClassifier).2.engine.log.drop exampleClassifier.engine.log.length →
      info = ([1 / 2, 1] : List ℚ).map (fun s => max (1 / 100) (1 - 9 / 10 * s) /
          ((([1 / 2, 1] : List ℚ).map (fun s => max (1 / 100) (1 - 9 / 10 * s))).sum
            / (([1 / 2, 1] : List ℚ).length : ℚ))) ∧
      info.length = ([5, 6] : List ℚ).length ∧
      info.sum / (info.length : ℚ) = 1) ∧
    (∃ info, Event.XGDMatrixSetFloatInfo
        (XGBClassifier.Fit exampleEnv [[1, 2], [3, 4]] [5, 6] [1 / 2, 1] 0 1
          exampleClassifier).2.self.dtrain_ "weight" info
      ∈ (XGBClassifier.Fit exampleEnv [[1, 2], [3, 4]] [5, 6] [1 / 2, 1] 0 1
          exampleClassifier).2.engine.log.drop exampleClassifier.engine.log.length) :=
  have h := Fit_weights_mean_one exampleEnv [[1, 2], [3, 4]] [5, 6] [1 / 2, 1] 0 1
    exampleClassifier (by decide) (by decide)
  ⟨by decide, by decide, h.2.1, h.2.2 (fun _ => rfl) (by decide)⟩

/-- C5, counterexample. The classifier of the example is fitted on a 2 x 2 feature matrix
with the labels `[5, 6]` and the stabilizer `[1.5, -2]`, non-empty and as long as the labels,
every engine call succeeding. The values `max(0.01, 1 - 0.9 s_i)` are `[0.01, 2.8]`, their
mean is `1.405`, and `Fit` returns without an error having attached to the training matrix
the "weight" vector `[2/281, 560/281]`, whose first entry is less than `0.01`. -/
theorem Fit_weights_floor_counterexample :
    ([3 / 2, -2] : List ℚ) ≠ [] ∧
    ([3 / 2, -2] : List ℚ).length = ([5, 6] : List ℚ).length ∧
    (XGBClassifier.Fit exampleEnv [[1, 2], [3, 4]] [5, 6] [3 / 2, -2] 0 1
      exampleClassifier).1.isOk = true ∧
    (XGBClassifier.Fit exampleEnv [[1, 2], [3, 4]] [5, 6] [3 / 2, -2] 0 1
      exampleClassifier).2.self.dtrain_ = some 0 ∧
    ((XGBClassifier.Fit exampleEnv [[1, 2], [3, 4]] [5, 6] [3 / 2, -2] 0 1
      exampleClassifier).2.engine.log.drop exampleClassifier.engine.log.length).take 3
      = [Event.XGDMatrixCreateFromMat [1, 2, 3, 4] 2 2,
         Event.XGDMatrixSetFloatInfo (some 0) "label" [0, 1],
         Event.XGDMatrixSetFloatInfo (some 0) "weight" [2 / 281, 560 / 281]] ∧
    (2 / 281 : ℚ) < 1 / 100 := by
  refine ⟨by decide, by decide, by decide!, by decide!, by decide!, by decide!⟩

/-- C5, amended. Sample weight floor for non-negative stabilizers. For every non-empty
stabilizer as long as the training labels whose values are all non-negative: whatever the
engine does, every entry of every vector that classification `Fit` attaches as "weight"
(after the rescaling by the mean) is greater than or equal to `0.01`, and the vector has one
entry per training label; and when every engine call succeeds and `CreateDMatrix` accepts the
feature matrix, `Fit` does attach such a vector, to the training matrix it leaves in
`dtrain_`. -/
theorem Fit_weights_floor (env : Env) (X : List (List ℚ)) (y stabilizer : List ℚ)
    (start stop : ℚ) (m : Machine)
    (hne : stabilizer ≠ []) (hlen : stabilizer.length = y.length)
    (hs : ∀ s ∈ stabilizer, 0 ≤ s) :
    (∀ h info, Event.XGDMatrixSetFloatInfo h "weight" info
        ∈ (XGBClassifier.Fit env X y stabilizer start stop m).2.engine.log.drop
            m.engine.log.length →
      info.length = y.length ∧ ∀ w ∈ info, 1 / 100 ≤ w) ∧
    ((∀ n, env.status n = 0) →
      (X ≠ [] ∧ ∀ row ∈ X, row.length = (X.headD []).length) →
      ∃ info, Event.XGDMatrixSetFloatInfo
          (XGBClassifier.Fit env X y stabilizer start stop m).2.self.dtrain_ "weight" info
        ∈ (XGBClassifier.Fit env X y stabilizer start stop m).2.engine.log.drop
            m.engine.log.length) := by
  refine ⟨?_, ?_⟩
  · intro h info hmem
    have hinfo := classifier_Fit_weight_events env X y stabilizer start stop m hne hlen h info
      hmem
    rw [hinfo]
    exact ⟨by rw [(sampleWeights_facts stabilizer hne).1, hlen],
      sampleWeights_ge stabilizer hne hs⟩
  · intro hok hX
    exact ⟨_, classifier_Fit_attaches env hok X y stabilizer start stop m hX hne hlen⟩

/-- Witness of the amended C5: the classifier of the example on a 2 x 2 feature matrix with
the labels `[5, 6]` and the non-negative stabilizer `[1/2, 1]`; every engine call succeeds,
so a "weight" vector is attached. -/
theorem Fit_weights_floor_witness :
    ([1 / 2, 1] : List ℚ) ≠ [] ∧
    ([1 / 2, 1] : List ℚ).length = ([5, 6] : List ℚ).length ∧
    (∀ s ∈ ([1 / 2, 1] : List ℚ), 0 ≤ s) ∧
    (∀ h info, Event.XGDMatrixSetFloatInfo h "weight" info
        ∈ (XGBClassifier.Fit exampleEnv [[1, 2], [3, 4]] [5, 6] [1 / 2, 1] 0 1
            exampleClassifier).2.engine.log.drop exampleClassifier.engine.log.length →
      info.length = ([5, 6] : List ℚ).length ∧ ∀ w ∈ info, 1 / 100 ≤ w) ∧
    (∃ info, Event.XGDMatrixSetFloatInfo
        (XGBClassifier.Fit exampleEnv [[1, 2], [3, 4]] [5, 6] [1 / 2, 1] 0 1
          exampleClassifier).2.self.dtrain_ "weight" info
      ∈ (XGBClassifier.Fit exampleEnv [[1, 2], [3, 4]] [5, 6] [1 / 2, 1] 0 1
          exampleClassifier).2.engine.log.drop exampleClassifier.engine.log.length) :=
  have hs : ∀ s ∈ ([1 / 2, 1] : List ℚ), 0 ≤ s := by
    intro s hmem
    simp only [List.mem_cons, List.mem_singleton, List.not_mem_nil, or_false] at hmem
    rcases hmem with rfl | rfl <;> norm_num
  have h := Fit_weights_floor exampleEnv [[1, 2], [3, 4]] [5, 6] [1 / 2, 1] 0 1
    exampleClassifier (by decide) (by decide) hs
  ⟨by decide, by decide, hs, h.1, h.2 (fun _ => rfl) (by decide)⟩

end XGB
